import Mathlib

/-!
# Verification of the crash_locator signature-resolution engine

A shallow embedding, in Lean 4, of the core of the `crash_locator`
repository: the method-signature model (`crash_locator/my_types.py`,
`crash_locator/utils/parser.py`), the stack-trace completion loop and the
pre-check stages (`crash_locator/pre_check.py`), the call-graph access layer
(`crash_locator/utils/cg.py`) and the source-locator filter pipeline
(`crash_locator/utils/java_parser.py`).

Modelling conventions:
* Python `str` values are modelled as `List Char` (named `Str` below).
* Python regular-expression matching (`re.match`) is modelled by an explicit
  backtracking matcher specialised to the two signature patterns of the
  source; choice points are tried in exactly the preference order of a
  backtracking regex engine (greedy quantifiers longest-first, lazy
  quantifiers shortest-first, alternations left-to-right).
* Python exceptions are modelled with `Except PyExc`; each constructor of
  `PyExc` names the exception class of the source.
* Python `set` values produced by iterating data in a fixed order are
  modelled as duplicate-free lists in first-insertion order; every use the
  theorems depend on is order-independent, which is noted where it matters.
* File systems, call-graph files and parsed Java syntax trees are external
  inputs of the source program; they are modelled as explicit parameters.
-/

abbrev Str := List Char

def pyStr (s : String) : Str := s.toList

/-- Python exception classes raised by the embedded code. -/
inductive PyExc where
  /-- `crash_locator.exceptions.InvalidSignatureException` -/
  | invalidSignature : PyExc
  /-- `crash_locator.exceptions.InvalidFrameworkStackException` -/
  | invalidFrameworkStack : PyExc
  /-- `crash_locator.exceptions.EmptyExceptionInfoException` -/
  | emptyExceptionInfo : PyExc
  /-- Python built-in `KeyError` (missing dict key) -/
  | keyError : PyExc
  /-- Python built-in `IndexError` (e.g. `pop` from an empty list) -/
  | indexError : PyExc
  /-- Python built-in `ValueError` -/
  | valueError : PyExc
  /-- Python built-in `ImportError` (a `from ... import name` with no such name) -/
  | importError : PyExc
  /-- Marker for a Python loop that provably never exits (non-termination). -/
  | diverge : PyExc
  /-- Artifact of the fuel-driven embedding of an unbounded loop: the fuel
      ran out before the loop reached an exit. -/
  | fuelExhausted : PyExc
  /-- `crash_locator.exceptions.NoMethodFoundCodeError` -/
  | noMethodFound : PyExc
  /-- `crash_locator.exceptions.MultipleMethodsCodeError` -/
  | multipleMethods : PyExc
  /-- `crash_locator.exceptions.CodeFileNotFoundException` -/
  | codeFileNotFound : PyExc
deriving Repr, DecidableEq

/-- Python `str.strip()` (drop leading and trailing whitespace). -/
def pyTrim (s : Str) : Str :=
  ((s.dropWhile Char.isWhitespace).reverse.dropWhile Char.isWhitespace).reverse

/-- Python `str.strip(cs)` (drop leading and trailing characters from `cs`). -/
def stripSet (cs : Str) (s : Str) : Str :=
  ((s.dropWhile (cs.contains ·)).reverse.dropWhile (cs.contains ·)).reverse

/-- First successful result of `f` over the list, in order: the backtracking
    search of a regex engine over an ordered list of choice points. -/
def firstSome : List α → (α → Option β) → Option β
  | [], _ => none
  | a :: as, f => match f a with
    | some b => some b
    | none => firstSome as f

/-- All splits of `s` into a nonempty prefix of characters satisfying `p`
    and the rest, longest prefix first: the choice points of a greedy `p+`. -/
def runsDesc (p : Char → Bool) (s : Str) : List (Str × Str) :=
  let m := s.takeWhile p
  (List.range m.length).map fun i => (m.take (m.length - i), s.drop (m.length - i))

/-- All splits of `s` into a (possibly empty) prefix of characters satisfying
    `p` and the rest, shortest prefix first: the choice points of a lazy `p*?`. -/
def runsAsc (p : Char → Bool) (s : Str) : List (Str × Str) :=
  let m := s.takeWhile p
  (List.range (m.length + 1)).map fun i => (m.take i, s.drop i)

/-- Python regex `\S` (non-whitespace). -/
def isNonSpace (c : Char) : Bool := !c.isWhitespace

/-- Python regex `\w` (word character; the signatures of this data set are
    ASCII, so `[A-Za-z0-9_]`). -/
def isWordChar (c : Char) : Bool := c.isAlphanum || c = '_'

/-- Character class `[\w$]` of the method-name group. -/
def isNameChar (c : Char) : Bool := isWordChar c || c = '$'

/-- Character class `[^()]` of the parameter-list group. -/
def isNonParen (c : Char) : Bool := c ≠ '(' && c ≠ ')'

/-- Choice points of the optional greedy group `(\$\S+)?`: first the
    alternatives that take the group (longest `\S+` first), then skipping it. -/
def dollarGroupChoices (s : Str) : List (Option Str × Str) :=
  (match s with
   | '$' :: rest => (runsDesc isNonSpace rest).map fun gr => (some ('$' :: gr.1), gr.2)
   | _ => []) ++ [(none, s)]

/-- Choice points of the alternation `[\w$]+|<init>|<clinit>` (the
    `<clinit>` arm only exists in `MethodSignature.from_str`, not in
    `utils/parser.py`; the flag selects it). -/
def nameChoices (allowClinit : Bool) (s : Str) : List (Str × Str) :=
  runsDesc isNameChar s
    ++ (if (pyStr "<init>").isPrefixOf s then [(pyStr "<init>", s.drop 6)] else [])
    ++ (if allowClinit && (pyStr "<clinit>").isPrefixOf s then
          [(pyStr "<clinit>", s.drop 8)] else [])

/-- One lazy-content choice of the group `(\([^()]*?\))`: accepted when the
    closing paren follows immediately. -/
def parenArm (gr : Str × Str) : Option (Option Str × Str) :=
  match gr.2 with
  | ')' :: r => some (some ('(' :: (gr.1 ++ [')'])), r)
  | _ => none

/-- Choice points of the optional group `(\([^()]*?\))?`: first the
    alternatives that take the group (lazy content, shortest first, each
    followed by the closing paren), then skipping it. -/
def parenGroupChoices (s : Str) : List (Option Str × Str) :=
  (match s with
   | '(' :: rest => (runsAsc isNonParen rest).filterMap parenArm
   | _ => []) ++ [(none, s)]

/-- Capture groups of pattern
    `^(\S+)\.(\w+)(\$\S+)?: (\S+) ([\w$]+|<init>|<clinit>)(\([^()]*?\))?$`. -/
structure P1Groups where
  g1 : Str
  g2 : Str
  g3 : Option Str
  g4 : Str
  g5 : Str
  g6 : Option Str
deriving Repr, DecidableEq

/-- Capture groups of pattern `^(\S+)\.(\w+)(\$\S+)?\.(\S+)$`. -/
structure P2Groups where
  g1 : Str
  g2 : Str
  g3 : Option Str
  g4 : Str
deriving Repr, DecidableEq

/-- The literal `\.` after group 1: proceed only when a dot follows the
    chosen `\S+` run. -/
def dotArm (k : Str → Str → Option β) (c1 : Str × Str) : Option β :=
  match c1.2 with
  | '.' :: r2 => k c1.1 r2
  | _ => none

/-- The literal `: ` after the optional group 3. -/
def colonSpaceArm (k : Option Str → Str → Option β) (c3 : Option Str × Str) : Option β :=
  match c3.2 with
  | ':' :: ' ' :: r5 => k c3.1 r5
  | _ => none

/-- The literal space after group 4. -/
def spaceArm (k : Str → Str → Option β) (c4 : Str × Str) : Option β :=
  match c4.2 with
  | ' ' :: r7 => k c4.1 r7
  | _ => none

/-- `re.match` of the full-form method pattern
    `^(\S+)\.(\w+)(\$\S+)?: (\S+) ([\w$]+|<init>|<clinit>)(\([^()]*?\))?$`,
    as a backtracking matcher with regex preference order. -/
def matchMethodPattern1 (allowClinit : Bool) (s : Str) : Option P1Groups :=
  firstSome (runsDesc isNonSpace s) <| dotArm fun g1 r2 =>
    firstSome (runsDesc isWordChar r2) fun c2 =>
      firstSome (dollarGroupChoices c2.2) <| colonSpaceArm fun g3 r5 =>
        firstSome (runsDesc isNonSpace r5) <| spaceArm fun g4 r7 =>
          firstSome (nameChoices allowClinit r7) fun c5 =>
            firstSome (parenGroupChoices c5.2) fun c6 =>
              if c6.2 = [] then
                some ⟨g1, c2.1, g3, g4, c5.1, c6.1⟩
              else none

/-- `re.match` of the short-form method pattern `^(\S+)\.(\w+)(\$\S+)?\.(\S+)$`. -/
def matchMethodPattern2 (s : Str) : Option P2Groups :=
  firstSome (runsDesc isNonSpace s) fun c1 =>
    match c1.2 with
    | '.' :: r2 =>
      firstSome (runsDesc isWordChar r2) fun c2 =>
        firstSome (dollarGroupChoices c2.2) fun c3 =>
          match c3.2 with
          | '.' :: r4 =>
            firstSome (runsDesc isNonSpace r4) fun c4 =>
              if c4.2 = [] then some ⟨c1.1, c2.1, c3.1, c4.1⟩ else none
          | _ => none
    | _ => none

/-- `crash_locator.my_types.MethodSignature` (the pydantic model's fields). -/
structure MethodSignature where
  package_name : Str
  class_name : Str
  inner_class : Option Str
  method_name : Str
  return_type : Option Str
  parameters : Option (List Str)
deriving Repr, DecidableEq

/-- Parameter-list post-processing of `MethodSignature.from_str` /
    `parse_signature`: `strip("()")`, split on `,`, strip each entry, drop
    empty entries. -/
def parseParameterList (pl : Str) : List Str :=
  (((stripSet (pyStr "()") pl).splitOn ',').map pyTrim).filter (· ≠ [])

/-- Shared body of the two signature parsers: strip whitespace and angle
    brackets, try the full-form pattern, then the short-form pattern.
    `none` models raising `InvalidSignatureException`. -/
def parseMethodSignature (allowClinit : Bool) (s : Str) : Option MethodSignature :=
  let t := stripSet (pyStr "<>") (pyTrim s)
  match matchMethodPattern1 allowClinit t with
  | some g =>
    some { package_name := g.g1
           class_name := g.g2
           inner_class := g.g3.map (stripSet (pyStr "$"))
           method_name := g.g5
           return_type := some g.g4
           parameters := g.g6.map parseParameterList }
  | none =>
    match matchMethodPattern2 t with
    | some g =>
      some { package_name := g.g1
             class_name := g.g2
             inner_class := g.g3.map (stripSet (pyStr "$"))
             method_name := g.g4
             return_type := none
             parameters := none }
    | none => none

/-- `MethodSignature.from_str` of `crash_locator/my_types.py` (its full-form
    pattern has the `<clinit>` alternative). -/
def MethodSignature.from_str (s : Str) : Option MethodSignature :=
  parseMethodSignature true s

/-- `parse_signature` of `crash_locator/utils/parser.py` (its full-form
    pattern has no `<clinit>` alternative). -/
def parse_signature (s : Str) : Option MethodSignature :=
  parseMethodSignature false s

/-- `MethodSignature.__str__`: note that it always prints the full form; a
    `None` return type is interpolated by the f-string as the text `None`,
    and empty-or-`None` parameters / inner class render as `""` (Python
    truthiness). -/
def MethodSignature.str (m : MethodSignature) : Str :=
  let params : Str := match m.parameters with
    | some ps => if ps = [] then [] else List.intercalate (pyStr ", ") ps
    | none => []
  let innerPart : Str := match m.inner_class with
    | some ic => if ic = [] then [] else '.' :: ic
    | none => []
  let ret : Str := match m.return_type with
    | some r => r
    | none => pyStr "None"
  m.package_name ++ '.' :: m.class_name ++ innerPart ++ pyStr ": "
    ++ ret ++ ' ' :: m.method_name ++ '(' :: params ++ [')']

/-- Whitespace normalization of the round-trip property: two strings are
    the same "up to whitespace" when they agree after every whitespace
    character is removed. -/
def removeWS (s : Str) : Str := s.filter fun c => !c.isWhitespace

/-- `MethodSignature.__eq__`: `package_name`, `class_name`, `inner_class`
    and `method_name` compare strictly; `return_type` and `parameters` only
    mismatch when both sides are non-`None` and differ. -/
def MethodSignature.eq (a b : MethodSignature) : Bool :=
  if a.package_name ≠ b.package_name then false
  else if a.class_name ≠ b.class_name then false
  else if a.inner_class ≠ b.inner_class then false
  else if a.method_name ≠ b.method_name then false
  else if a.return_type.isSome && b.return_type.isSome
          && a.return_type ≠ b.return_type then false
  else if a.parameters.isSome && b.parameters.isSome
          && a.parameters ≠ b.parameters then false
  else true

/-- `crash_locator.my_types.PackageType` (the `MethodType` alias used by
    `utils/cg.py` was intended to denote this enum). -/
inductive PackageType where
  | java : PackageType
  | android : PackageType
  | application : PackageType
  | androidSupport : PackageType
deriving Repr, DecidableEq

/-- The prefix rules shared by `PackageType.get_package_type` and
    `utils.helper.get_method_type`. -/
def PackageType.ofPackageName (packageName : Str) : PackageType :=
  if (pyStr "java").isPrefixOf packageName then .java
  else if (pyStr "android.support").isPrefixOf packageName then .androidSupport
  else if (pyStr "android").isPrefixOf packageName
          || (pyStr "com.android").isPrefixOf packageName then .android
  else .application

/-- `utils.helper.get_method_type`: parse the signature text with
    `utils.parser.parse_signature`, then classify its package name.
    `none` models the propagated `InvalidSignatureException`. -/
def get_method_type (s : Str) : Option PackageType :=
  (parse_signature s).map fun sig => PackageType.ofPackageName sig.package_name

example : MethodSignature.from_str (pyStr "android.view.ViewRoot: void checkThread()")
    = some { package_name := pyStr "android.view", class_name := pyStr "ViewRoot",
             inner_class := none, method_name := pyStr "checkThread",
             return_type := some (pyStr "void"), parameters := some [] } := by decide

example : MethodSignature.from_str (pyStr "android.view.ViewRoot.checkThread")
    = some { package_name := pyStr "android.view", class_name := pyStr "ViewRoot",
             inner_class := none, method_name := pyStr "checkThread",
             return_type := none, parameters := none } := by decide

example : MethodSignature.from_str
      (pyStr "android.view.ViewRoot: android.view.ViewParent invalidateChildInParent(int[],android.graphics.Rect)")
    = some { package_name := pyStr "android.view", class_name := pyStr "ViewRoot",
             inner_class := none, method_name := pyStr "invalidateChildInParent",
             return_type := some (pyStr "android.view.ViewParent"),
             parameters := some [pyStr "int[]", pyStr "android.graphics.Rect"] } := by decide

example : MethodSignature.from_str (pyStr "<a.B$Inner: void m(int)>")
    = some { package_name := pyStr "a", class_name := pyStr "B",
             inner_class := some (pyStr "Inner"), method_name := pyStr "m",
             return_type := some (pyStr "void"), parameters := some [pyStr "int"] } := by decide

example : MethodSignature.from_str
      (pyStr "<android.view.View: void invalidate(android.graphics.Rect)>; <android.view.View: void invalidate()>")
    = none := by decide

example : get_method_type (pyStr "java.lang.Thread: void run()") = some .java := by decide

example : get_method_type (pyStr "android.support.v4.app.Fragment: void onStart()")
    = some .androidSupport := by decide

example : get_method_type (pyStr "com.example.app.Main.run") = some .application := by decide

/-! ## Candidate and report model (the fields consulted by the embedded stages) -/

/-- `crash_locator.my_types.ReasonTypeLiteral`. -/
inductive ReasonTypeLiteral where
  | keyVarTerminal : ReasonTypeLiteral
  | keyVarNonTerminal : ReasonTypeLiteral
  | keyApiInvoked : ReasonTypeLiteral
  | keyApiExecuted : ReasonTypeLiteral
  | keyVarModifiedField : ReasonTypeLiteral
  | notOverrideMethod : ReasonTypeLiteral
  | notOverrideMethodExecuted : ReasonTypeLiteral
  | frameworkRecall : ReasonTypeLiteral
  | keyVar3 : ReasonTypeLiteral
deriving Repr, DecidableEq

/-- `crash_locator.my_types.Candidate`, restricted to the fields the embedded
    operations consult: its short name, its signature, and the
    `reason_type` discriminator of its reason (the reason payloads and the
    extend hierarchy are never read by `_fix_candidate_signature` or
    `_remove_useless_candidates`). -/
structure Candidate where
  name : Str
  signature : MethodSignature
  reasonType : ReasonTypeLiteral
deriving Repr, DecidableEq

/-- `crash_locator.my_types.ReportInfo`, restricted to the fields consulted
    by the embedded stages (`stack_trace`, `stack_trace_short_api`,
    `candidates`). -/
structure ReportInfo where
  stack_trace : List Str
  stack_trace_short_api : List Str
  candidates : List Candidate
deriving Repr, DecidableEq

/-! ## `pre_check._remove_useless_candidates` -/

/-- `_remove_useless_candidates` of `crash_locator/pre_check.py`: keep
    exactly the candidates whose `signature.method_name` does not start with
    `access$`. -/
def remove_useless_candidates (report : ReportInfo) : ReportInfo :=
  { report with
    candidates := report.candidates.filter
      (fun c => !(pyStr "access$").isPrefixOf c.signature.method_name) }

/-! ## `pre_check._get_and_check_framework_stack` -/

/-- The frame loop of `_get_and_check_framework_stack`: walk
    `zip(stack_trace, stack_trace_short_api)` accumulating `ANDROID` /
    `ANDROID_SUPPORT` frames, raise on a `JAVA` frame, stop (with the flag
    that the divider was found) at the first `APPLICATION` frame. -/
def frameworkStackScan : List (Str × Str) → Except PyExc (List Str × List Str × Bool)
  | [] => .ok ([], [], false)
  | (method, methodShortApi) :: rest =>
    match get_method_type method with
    | none => .error .invalidSignature
    | some .android => do
        let (ft, fs, found) ← frameworkStackScan rest
        .ok (method :: ft, methodShortApi :: fs, found)
    | some .androidSupport => do
        let (ft, fs, found) ← frameworkStackScan rest
        .ok (method :: ft, methodShortApi :: fs, found)
    | some .java => .error .invalidFrameworkStack
    | some .application => .ok ([], [], true)

/-- `_get_and_check_framework_stack` of `crash_locator/pre_check.py`. -/
def get_and_check_framework_stack (stack_trace stack_trace_short_api : List Str) :
    Except PyExc (List Str × List Str) := do
  let (ft, fs, found) ← frameworkStackScan (stack_trace.zip stack_trace_short_api)
  if ft = [] ∨ found = false then .error .invalidFrameworkStack
  else .ok (ft, fs)

/-! ## `pre_check._fix_candidate_signature` -/

/-- The two counters of `PreCheckStatistic` that `_fix_candidate_signature`
    updates (`fixed_failed_duplicate`, `fixed_reports`; the per-report
    detail dictionary only records strings and is omitted). -/
structure FixStat where
  fixed_failed_duplicate : Nat
  fixed_reports : Nat
deriving Repr, DecidableEq

/-- The frame loop of `_fix_candidate_signature` for one candidate: scan
    `zip(stack_trace, stack_trace_short_api)`, remember the first frame
    whose short name equals the candidate name and whose parsed signature
    differs (under `MethodSignature.__eq__`) from the candidate signature;
    stop reporting a duplicate as soon as a second such frame appears. -/
def fixScan (cand : Candidate) (target : Option Str) :
    List (Str × Str) → Except PyExc (Option Str × Bool)
  | [] => .ok (target, false)
  | (method, methodShortApi) :: rest =>
    match MethodSignature.from_str method with
    | none => .error .invalidSignature
    | some sig =>
      if methodShortApi = cand.name ∧ ¬(sig.eq cand.signature) then
        match target with
        | none => fixScan cand (some method) rest
        | some t => .ok (some t, true)
      else fixScan cand target rest

/-- The per-candidate body of `_fix_candidate_signature`: only candidates
    with reason `KEY_VAR_TERMINAL` are touched; a unique differing frame
    replaces the signature (counted in `fixed_reports`), a duplicate leaves
    it unchanged (counted in `fixed_failed_duplicate`). -/
def fix_candidate_one (stack shortApi : List Str) (stat : FixStat) (cand : Candidate) :
    Except PyExc (Candidate × FixStat) :=
  if cand.reasonType = .keyVarTerminal then do
    let (target, dup) ← fixScan cand none (stack.zip shortApi)
    if dup then
      .ok (cand, { stat with fixed_failed_duplicate := stat.fixed_failed_duplicate + 1 })
    else
      match target with
      | some t =>
        match MethodSignature.from_str t with
        | some sig =>
          .ok ({ cand with signature := sig },
               { stat with fixed_reports := stat.fixed_reports + 1 })
        | none => .error .invalidSignature
      | none => .ok (cand, stat)
  else .ok (cand, stat)

/-- The candidate loop of `_fix_candidate_signature`. -/
def fixCandidatesGo (stack shortApi : List Str) (stat : FixStat) :
    List Candidate → Except PyExc (List Candidate × FixStat)
  | [] => .ok ([], stat)
  | c :: cs => do
      let (c', stat') ← fix_candidate_one stack shortApi stat c
      let (cs', stat'') ← fixCandidatesGo stack shortApi stat' cs
      .ok (c' :: cs', stat'')

/-- `_fix_candidate_signature` of `crash_locator/pre_check.py`. -/
def fix_candidate_signature (stat : FixStat) (report : ReportInfo) :
    Except PyExc (ReportInfo × FixStat) := do
  let (cs, stat') ←
    fixCandidatesGo report.stack_trace report.stack_trace_short_api stat report.candidates
  .ok ({ report with candidates := cs }, stat')

/-! ## Claim C1: wildcard equality -/

/-- Concrete signature with no inner class. -/
def c1SigNoInner : MethodSignature :=
  { package_name := pyStr "com.app", class_name := pyStr "Main",
    inner_class := none, method_name := pyStr "run",
    return_type := some (pyStr "void"), parameters := some [] }

/-- The same signature with an inner-class path set. -/
def c1SigInner : MethodSignature :=
  { c1SigNoInner with inner_class := some (pyStr "Worker") }

/-- C1 counterexample: `MethodSignature.__eq__` is NOT wildcard-tolerant on
    the optional `inner_class` field: a signature with `inner_class = None`
    is unequal to the otherwise identical signature with `inner_class` set,
    although every other field coincides. -/
theorem c1_inner_class_not_wildcard :
    MethodSignature.eq c1SigNoInner c1SigInner = false
    ∧ c1SigNoInner.inner_class = none
    ∧ c1SigNoInner.package_name = c1SigInner.package_name
    ∧ c1SigNoInner.class_name = c1SigInner.class_name
    ∧ c1SigNoInner.method_name = c1SigInner.method_name
    ∧ c1SigNoInner.return_type = c1SigInner.return_type
    ∧ c1SigNoInner.parameters = c1SigInner.parameters := by
  decide

/-- C1 (amended): `MethodSignature.__eq__` fails exactly when one of the
    strictly compared fields (`package_name`, `class_name`, `inner_class` —
    including `None` versus set — or `method_name`) differs, or when
    `return_type` or `parameters` is specified on both sides with different
    values; an absent `return_type` or `parameters` never causes a
    mismatch, but an absent `inner_class` does. -/
theorem c1_eq_characterization (a b : MethodSignature) :
    MethodSignature.eq a b = false ↔
      (a.package_name ≠ b.package_name ∨ a.class_name ≠ b.class_name
        ∨ a.inner_class ≠ b.inner_class ∨ a.method_name ≠ b.method_name
        ∨ (a.return_type.isSome ∧ b.return_type.isSome ∧ a.return_type ≠ b.return_type)
        ∨ (a.parameters.isSome ∧ b.parameters.isSome ∧ a.parameters ≠ b.parameters)) := by
  unfold MethodSignature.eq
  split_ifs with h1 h2 h3 h4 h5 h6 <;> simp_all

/-! ## Claim C2: candidate pruning -/

/-- A candidate whose method is a compiler-synthesized accessor and whose
    reason is the not-overridden category. -/
def c2Candidate : Candidate :=
  { name := pyStr "Main.access$100",
    signature :=
      { package_name := pyStr "com.app", class_name := pyStr "Main",
        inner_class := none, method_name := pyStr "access$100",
        return_type := some (pyStr "void"), parameters := some [] },
    reasonType := .notOverrideMethod }

/-- A report holding only that candidate. -/
def c2Report : ReportInfo :=
  { stack_trace := [], stack_trace_short_api := [], candidates := [c2Candidate] }

/-- C2 counterexample: `_remove_useless_candidates` prunes an `access$`
    candidate even when its reason is the not-overridden category — the
    claimed exemption does not exist in the code. -/
theorem c2_not_override_candidate_pruned :
    c2Candidate.reasonType = .notOverrideMethod
    ∧ c2Candidate ∈ c2Report.candidates
    ∧ (remove_useless_candidates c2Report).candidates = [] := by
  decide

/-- C2 (amended): the pruning step removes a candidate if and only if its
    method name starts with `access$` — the candidate's reason is never
    consulted, so not-overridden candidates with accessor names are pruned
    too. -/
theorem c2_pruning_by_prefix_only (report : ReportInfo) (c : Candidate) :
    c ∈ (remove_useless_candidates report).candidates ↔
      c ∈ report.candidates
        ∧ ¬(pyStr "access$").isPrefixOf c.signature.method_name := by
  simp [remove_useless_candidates, List.mem_filter, ← List.isPrefixOf_iff_prefix]

/-! ## Claim C3: framework-stack boundary classification -/

/-- A frame whose package type is os-framework (`android*`/`com.android*`)
    or compat-shim (`android.support*`). -/
def isFrameworkFrame (m : Str) : Bool :=
  match get_method_type m with
  | some .android => true
  | some .androidSupport => true
  | _ => false

/-- The maximal contiguous framework prefix of a stack trace. -/
def frameworkPrefix (stack : List Str) : List Str :=
  stack.takeWhile isFrameworkFrame

/-- A `java*`-package frame occurs before the first application frame. -/
def javaBeforeDivider (stack : List Str) : Bool :=
  (stack.takeWhile fun m => !decide (get_method_type m = some .application)).any
    fun m => decide (get_method_type m = some .java)

/-- Some frame of the trace is application-owned. -/
def hasApplicationFrame (stack : List Str) : Bool :=
  stack.any fun m => decide (get_method_type m = some .application)

/-- `framework_trace[-1]` as evaluated by `pre_check` (line 469): the entry
    API is the last element of the framework trace; Python indexing raises
    `IndexError` on an empty list. -/
def framework_entry_api (framework_trace : List Str) : Except PyExc Str :=
  match framework_trace.getLast? with
  | some m => .ok m
  | none => .error .indexError

theorem frameworkStackScan_eq (l : List (Str × Str))
    (hp : ∀ p ∈ l, (get_method_type p.1).isSome) :
    frameworkStackScan l =
      if (l.takeWhile fun p => !decide (get_method_type p.1 = some .application)).any
           (fun p => decide (get_method_type p.1 = some .java)) then
        .error .invalidFrameworkStack
      else
        .ok ((l.takeWhile fun p => isFrameworkFrame p.1).map Prod.fst,
             (l.takeWhile fun p => isFrameworkFrame p.1).map Prod.snd,
             l.any fun p => decide (get_method_type p.1 = some .application)) := by
  induction l with
  | nil => simp [frameworkStackScan]
  | cons p rest ih =>
    obtain ⟨m, ms⟩ := p
    have hp1 : (get_method_type m).isSome := hp (m, ms) (by simp)
    have hprest : ∀ q ∈ rest, (get_method_type q.1).isSome := fun q hq => hp q (by simp [hq])
    obtain ⟨pt, hpt⟩ := Option.isSome_iff_exists.mp hp1
    rw [frameworkStackScan]
    cases pt with
    | java =>
      simp [hpt, List.takeWhile_cons, isFrameworkFrame]
    | application =>
      simp [hpt, List.takeWhile_cons, isFrameworkFrame]
    | android =>
      rw [hpt, ih hprest]
      by_cases hj :
          (rest.takeWhile fun p => !decide (get_method_type p.1 = some .application)).any
            (fun p => decide (get_method_type p.1 = some .java)) = true
      · simp [hj, hpt, List.takeWhile_cons, Bind.bind, Except.bind]
      · simp only [Bool.not_eq_true] at hj
        simp [hj, hpt, List.takeWhile_cons, isFrameworkFrame, Bind.bind, Except.bind]
    | androidSupport =>
      rw [hpt, ih hprest]
      by_cases hj :
          (rest.takeWhile fun p => !decide (get_method_type p.1 = some .application)).any
            (fun p => decide (get_method_type p.1 = some .java)) = true
      · simp [hj, hpt, List.takeWhile_cons, Bind.bind, Except.bind]
      · simp only [Bool.not_eq_true] at hj
        simp [hj, hpt, List.takeWhile_cons, isFrameworkFrame, Bind.bind, Except.bind]

theorem zip_takeWhile_fst (q : Str → Bool) :
    ∀ (l1 l2 : List Str), l2.length = l1.length →
      (l1.zip l2).takeWhile (fun p => q p.1) =
        (l1.takeWhile q).zip (l2.take (l1.takeWhile q).length) := by
  intro l1
  induction l1 with
  | nil => intro l2 _; simp
  | cons m t1 ih =>
    intro l2 hlen
    cases l2 with
    | nil => simp at hlen
    | cons s t2 =>
      simp only [List.length_cons, Nat.succ.injEq] at hlen
      by_cases hm : q m = true
      · simp [List.takeWhile_cons, hm, ih t2 hlen]
      · simp only [Bool.not_eq_true] at hm
        simp [List.takeWhile_cons, hm]

theorem takeWhile_length_le (q : α → Bool) (l : List α) :
    (l.takeWhile q).length ≤ l.length := by
  induction l with
  | nil => simp
  | cons a t ih =>
    by_cases h : q a = true
    · simpa [List.takeWhile_cons, h] using Nat.succ_le_succ ih
    · simp only [Bool.not_eq_true] at h
      simp [List.takeWhile_cons, h]

theorem zip_any_fst (q : Str → Bool) :
    ∀ (l1 l2 : List Str), l2.length = l1.length →
      ((l1.zip l2).any fun p => q p.1) = l1.any q := by
  intro l1
  induction l1 with
  | nil => intro l2 _; simp
  | cons m t1 ih =>
    intro l2 hlen
    cases l2 with
    | nil => simp at hlen
    | cons s t2 =>
      simp only [List.length_cons, Nat.succ.injEq] at hlen
      simp [ih t2 hlen]

/-- C3: `_get_and_check_framework_stack` returns exactly the maximal
    contiguous framework prefix (os-framework / compat-shim frames) of the
    stack trace together with the parallel short names, stopping at and
    excluding the first application frame (whose last element `pre_check`
    then takes as the entry API), and it raises
    `InvalidFrameworkStackException` if and only if a `java*`-package frame
    occurs before the first application frame, or no application frame
    exists, or the accumulated framework prefix is empty. -/
theorem c3_framework_stack_spec (stack shortApi : List Str)
    (hlen : shortApi.length = stack.length)
    (hp : ∀ m ∈ stack, (parse_signature m).isSome) :
    (get_and_check_framework_stack stack shortApi = .error .invalidFrameworkStack ↔
      (javaBeforeDivider stack = true ∨ hasApplicationFrame stack = false
        ∨ frameworkPrefix stack = []))
    ∧ (∀ ft fs, get_and_check_framework_stack stack shortApi = .ok (ft, fs) →
        ft = frameworkPrefix stack
        ∧ fs = shortApi.take (frameworkPrefix stack).length
        ∧ ∃ e, framework_entry_api ft = .ok e
            ∧ (frameworkPrefix stack).getLast? = some e) := by
  have hp' : ∀ p ∈ stack.zip shortApi, (get_method_type p.1).isSome := by
    intro p hpz
    have hm := (List.of_mem_zip hpz).1
    have := hp p.1 hm
    simpa [get_method_type] using this
  have hscan := frameworkStackScan_eq (stack.zip shortApi) hp'
  have hz1 := zip_takeWhile_fst (fun m => !decide (get_method_type m = some .application))
    stack shortApi hlen
  have hz2 := zip_takeWhile_fst (fun m => isFrameworkFrame m) stack shortApi hlen
  have htlen : ((stack.takeWhile isFrameworkFrame).length)
      ≤ (shortApi.take (stack.takeWhile isFrameworkFrame).length).length := by
    have h1 : (stack.takeWhile isFrameworkFrame).length ≤ stack.length :=
      takeWhile_length_le _ _
    simp [List.length_take, hlen]
    omega
  have hja : ((stack.zip shortApi).takeWhile
        (fun p => !decide (get_method_type p.1 = some .application))).any
        (fun p => decide (get_method_type p.1 = some .java))
      = javaBeforeDivider stack := by
    rw [hz1]
    have hlen2 : (shortApi.take
          (stack.takeWhile fun m => !decide (get_method_type m = some .application)).length).length
        = (stack.takeWhile fun m => !decide (get_method_type m = some .application)).length := by
      have := takeWhile_length_le
        (fun m => !decide (get_method_type m = some .application)) stack
      simp [List.length_take, hlen]
      omega
    rw [zip_any_fst (fun m => decide (get_method_type m = some .java)) _ _ hlen2]
    rfl
  have happ : ((stack.zip shortApi).any
        fun p => decide (get_method_type p.1 = some .application))
      = hasApplicationFrame stack := by
    rw [zip_any_fst (fun m => decide (get_method_type m = some .application)) _ _ hlen]
    rfl
  have hfst : ((stack.zip shortApi).takeWhile fun p => isFrameworkFrame p.1).map Prod.fst
      = frameworkPrefix stack := by
    rw [hz2, List.map_fst_zip _ _ htlen]
    rfl
  have hsnd : ((stack.zip shortApi).takeWhile fun p => isFrameworkFrame p.1).map Prod.snd
      = shortApi.take (frameworkPrefix stack).length := by
    rw [hz2, List.map_snd_zip]
    · rfl
    · simp only [List.length_take]
      exact Nat.min_le_left _ _
  rw [hja, happ, hfst, hsnd] at hscan
  by_cases hjb : javaBeforeDivider stack = true
  · rw [hjb] at hscan
    simp only [if_true] at hscan
    constructor
    · rw [get_and_check_framework_stack, hscan]
      simp [Bind.bind, Except.bind, hjb]
    · intro ft fs hok
      rw [get_and_check_framework_stack, hscan] at hok
      simp [Bind.bind, Except.bind] at hok
  · simp only [Bool.not_eq_true] at hjb
    rw [hjb] at hscan
    simp only [Bool.false_eq_true, if_false] at hscan
    by_cases hempty : frameworkPrefix stack = []
    · constructor
      · rw [get_and_check_framework_stack, hscan]
        simp [Bind.bind, Except.bind, hempty, hjb]
      · intro ft fs hok
        rw [get_and_check_framework_stack, hscan] at hok
        simp [Bind.bind, Except.bind, hempty] at hok
    · by_cases hhas : hasApplicationFrame stack = true
      · constructor
        · rw [get_and_check_framework_stack, hscan]
          simp [Bind.bind, Except.bind, hempty, hjb, hhas]
        · intro ft fs hok
          rw [get_and_check_framework_stack, hscan] at hok
          simp only [Bind.bind, Except.bind, hhas, hempty, Bool.true_eq_false, or_self,
            if_false, Except.ok.injEq, Prod.mk.injEq] at hok
          obtain ⟨hft, hfs⟩ := hok
          refine ⟨hft.symm, hfs.symm, ?_⟩
          obtain ⟨e, he⟩ := List.getLast?_isSome.mpr hempty |> Option.isSome_iff_exists.mp
          exact ⟨e, by rw [← hft]; simp [framework_entry_api, he], he⟩
      · simp only [Bool.not_eq_true] at hhas
        rw [hhas] at hscan
        constructor
        · rw [get_and_check_framework_stack, hscan]
          simp [Bind.bind, Except.bind, hjb, hhas]
        · intro ft fs hok
          rw [get_and_check_framework_stack, hscan] at hok
          simp [Bind.bind, Except.bind] at hok

/-- A concrete trace: two os-framework frames followed by an application
    frame. -/
def c3Stack : List Str :=
  [pyStr "android.view.View: void draw()",
   pyStr "android.app.Activity: void onCreate()",
   pyStr "com.example.app.Main: void run()"]

/-- The parallel short names of `c3Stack`. -/
def c3Short : List Str :=
  [pyStr "View.draw", pyStr "Activity.onCreate", pyStr "Main.run"]

theorem c3_framework_stack_witness :
    get_and_check_framework_stack c3Stack c3Short = .ok (c3Stack.take 2, c3Short.take 2)
    ∧ (c3Stack.take 2 = frameworkPrefix c3Stack
        ∧ c3Short.take 2 = c3Short.take (frameworkPrefix c3Stack).length
        ∧ ∃ e, framework_entry_api (c3Stack.take 2) = .ok e
            ∧ (frameworkPrefix c3Stack).getLast? = some e) :=
  ⟨by rfl,
   (c3_framework_stack_spec c3Stack c3Short (by decide) (by decide)).2 _ _ (by rfl)⟩

/-! ## Claim C5: terminal-reaching signature correction -/

/-- The per-frame condition of `_fix_candidate_signature`: short name equal
    to the candidate's name and parsed full signature different (under the
    wildcard-aware equality) from the candidate's signature. -/
def fixMatchPred (cand : Candidate) (p : Str × Str) : Bool :=
  match MethodSignature.from_str p.1 with
  | some sig => decide (p.2 = cand.name) && !(sig.eq cand.signature)
  | none => false

/-- The frames of the zipped trace that satisfy `fixMatchPred`. -/
def fixMatches (cand : Candidate) (zipped : List (Str × Str)) : List Str :=
  (zipped.filter (fixMatchPred cand)).map Prod.fst

theorem fixMatchPred_true (cand : Candidate) (m ms : Str) (sig : MethodSignature)
    (hsig : MethodSignature.from_str m = some sig)
    (h1 : ms = cand.name) (h2 : sig.eq cand.signature = false) :
    fixMatchPred cand (m, ms) = true := by
  simp [fixMatchPred, hsig, h1, h2]

theorem fixMatchPred_false (cand : Candidate) (m ms : Str) (sig : MethodSignature)
    (hsig : MethodSignature.from_str m = some sig)
    (hcond : ¬(ms = cand.name ∧ ¬sig.eq cand.signature = true)) :
    fixMatchPred cand (m, ms) = false := by
  by_cases h1 : ms = cand.name
  · have h2 : sig.eq cand.signature = true := by
      by_contra h2
      exact hcond ⟨h1, by simpa using h2⟩
    simp [fixMatchPred, hsig, h1, h2]
  · simp [fixMatchPred, hsig, h1]

theorem fixScan_some_spec (cand : Candidate) (t : Str) :
    ∀ zipped : List (Str × Str),
      (∀ p ∈ zipped, (MethodSignature.from_str p.1).isSome) →
      fixScan cand (some t) zipped =
        if fixMatches cand zipped = [] then .ok (some t, false) else .ok (some t, true) := by
  intro zipped
  induction zipped with
  | nil => intro _; simp [fixScan, fixMatches]
  | cons p rest ih =>
    intro hp
    obtain ⟨m, ms⟩ := p
    obtain ⟨sig, hsig⟩ := Option.isSome_iff_exists.mp (hp (m, ms) (by simp))
    have hrest := fun q hq => hp q (List.mem_cons_of_mem _ hq)
    by_cases hcond : ms = cand.name ∧ ¬(sig.eq cand.signature) = true
    · have hm : fixMatches cand ((m, ms) :: rest) = m :: fixMatches cand rest := by
        have := fixMatchPred_true cand m ms sig hsig hcond.1 (by simpa using hcond.2)
        simp [fixMatches, List.filter_cons, this]
      rw [fixScan, hsig]
      show (if ms = cand.name ∧ ¬sig.eq cand.signature = true
          then Except.ok (some t, true) else fixScan cand (some t) rest) = _
      rw [if_pos hcond, hm]
      simp
    · have hm : fixMatches cand ((m, ms) :: rest) = fixMatches cand rest := by
        have := fixMatchPred_false cand m ms sig hsig hcond
        simp [fixMatches, List.filter_cons, this]
      rw [fixScan, hsig]
      show (if ms = cand.name ∧ ¬sig.eq cand.signature = true
          then Except.ok (some t, true) else fixScan cand (some t) rest) = _
      rw [if_neg hcond, ih hrest, hm]

theorem fixScan_none_spec (cand : Candidate) :
    ∀ zipped : List (Str × Str),
      (∀ p ∈ zipped, (MethodSignature.from_str p.1).isSome) →
      fixScan cand none zipped =
        match fixMatches cand zipped with
        | [] => .ok (none, false)
        | [m] => .ok (some m, false)
        | m :: _ :: _ => .ok (some m, true) := by
  intro zipped
  induction zipped with
  | nil => intro _; simp [fixScan, fixMatches]
  | cons p rest ih =>
    intro hp
    obtain ⟨m, ms⟩ := p
    obtain ⟨sig, hsig⟩ := Option.isSome_iff_exists.mp (hp (m, ms) (by simp))
    have hrest := fun q hq => hp q (List.mem_cons_of_mem _ hq)
    by_cases hcond : ms = cand.name ∧ ¬(sig.eq cand.signature) = true
    · have hm : fixMatches cand ((m, ms) :: rest) = m :: fixMatches cand rest := by
        have := fixMatchPred_true cand m ms sig hsig hcond.1 (by simpa using hcond.2)
        simp [fixMatches, List.filter_cons, this]
      rw [fixScan, hsig]
      show (if ms = cand.name ∧ ¬sig.eq cand.signature = true
          then fixScan cand (some m) rest else fixScan cand none rest) = _
      rw [if_pos hcond, fixScan_some_spec cand m rest hrest, hm]
      by_cases hr : fixMatches cand rest = []
      · simp [hr]
      · obtain ⟨q, qs, hq⟩ := List.exists_cons_of_ne_nil hr
        simp [hr, hq]
    · have hm : fixMatches cand ((m, ms) :: rest) = fixMatches cand rest := by
        have := fixMatchPred_false cand m ms sig hsig hcond
        simp [fixMatches, List.filter_cons, this]
      rw [fixScan, hsig]
      show (if ms = cand.name ∧ ¬sig.eq cand.signature = true
          then fixScan cand (some m) rest else fixScan cand none rest) = _
      rw [if_neg hcond, ih hrest, hm]

theorem fixMatches_mem_isSome (cand : Candidate) (zipped : List (Str × Str))
    (hp : ∀ p ∈ zipped, (MethodSignature.from_str p.1).isSome) :
    ∀ m ∈ fixMatches cand zipped, (MethodSignature.from_str m).isSome := by
  intro m hm
  simp only [fixMatches, List.mem_map, List.mem_filter] at hm
  obtain ⟨p, ⟨hpz, _⟩, hfst⟩ := hm
  exact hfst ▸ hp p hpz

theorem fix_candidate_one_spec (stack shortApi : List Str) (stat : FixStat) (cand : Candidate)
    (hp : ∀ p ∈ stack.zip shortApi, (MethodSignature.from_str p.1).isSome) :
    (cand.reasonType ≠ .keyVarTerminal →
       fix_candidate_one stack shortApi stat cand = .ok (cand, stat))
    ∧ (cand.reasonType = .keyVarTerminal →
        (fixMatches cand (stack.zip shortApi) = [] →
          fix_candidate_one stack shortApi stat cand = .ok (cand, stat))
        ∧ (∀ m, fixMatches cand (stack.zip shortApi) = [m] →
            ∃ sig, MethodSignature.from_str m = some sig
              ∧ fix_candidate_one stack shortApi stat cand
                  = .ok ({ cand with signature := sig },
                         { stat with fixed_reports := stat.fixed_reports + 1 }))
        ∧ (∀ m q rest, fixMatches cand (stack.zip shortApi) = m :: q :: rest →
            fix_candidate_one stack shortApi stat cand
              = .ok (cand, { stat with
                  fixed_failed_duplicate := stat.fixed_failed_duplicate + 1 }))) := by
  constructor
  · intro hne
    rw [fix_candidate_one, if_neg hne]
  · intro hr
    have hscan := fixScan_none_spec cand (stack.zip shortApi) hp
    refine ⟨?_, ?_, ?_⟩
    · intro hnil
      rw [hnil] at hscan
      rw [fix_candidate_one, if_pos hr]
      simp [hscan, Bind.bind, Except.bind]
    · intro m hone
      rw [hone] at hscan
      obtain ⟨sig, hsig⟩ := Option.isSome_iff_exists.mp
        (fixMatches_mem_isSome cand _ hp m (by simp [hone]))
      refine ⟨sig, hsig, ?_⟩
      rw [fix_candidate_one, if_pos hr]
      simp [hscan, Bind.bind, Except.bind, hsig]
    · intro m q rest htwo
      rw [htwo] at hscan
      rw [fix_candidate_one, if_pos hr]
      simp [hscan, Bind.bind, Except.bind]

/-- Candidates of a `KEY_VAR_TERMINAL`-reason with at least two differing
    same-short-name frames (tallied into `fixed_failed_duplicate`). -/
def c5DupCount (zipped : List (Str × Str)) (cs : List Candidate) : Nat :=
  cs.countP fun c =>
    decide (c.reasonType = .keyVarTerminal) && decide (2 ≤ (fixMatches c zipped).length)

/-- Candidates of a `KEY_VAR_TERMINAL`-reason with exactly one differing
    same-short-name frame (tallied into `fixed_reports`). -/
def c5FixCount (zipped : List (Str × Str)) (cs : List Candidate) : Nat :=
  cs.countP fun c =>
    decide (c.reasonType = .keyVarTerminal) && decide ((fixMatches c zipped).length = 1)

/-- The per-candidate contract of `_fix_candidate_signature`: candidates of
    any other reason category, and terminal-reaching candidates with zero or
    more than one differing frame, are left unchanged; a terminal-reaching
    candidate with exactly one differing frame gets that frame's parsed
    signature. -/
def c5Rel (zipped : List (Str × Str)) (c c' : Candidate) : Prop :=
  (c.reasonType ≠ .keyVarTerminal → c' = c)
  ∧ (c.reasonType = .keyVarTerminal →
      match fixMatches c zipped with
      | [] => c' = c
      | [m] => ∃ sig, MethodSignature.from_str m = some sig ∧ c' = { c with signature := sig }
      | _ :: _ :: _ => c' = c)

theorem fixCandidatesGo_spec (stack shortApi : List Str)
    (hp : ∀ p ∈ stack.zip shortApi, (MethodSignature.from_str p.1).isSome) :
    ∀ (cs : List Candidate) (stat : FixStat), ∃ cs',
      fixCandidatesGo stack shortApi stat cs
        = .ok (cs', ⟨stat.fixed_failed_duplicate + c5DupCount (stack.zip shortApi) cs,
                     stat.fixed_reports + c5FixCount (stack.zip shortApi) cs⟩)
      ∧ List.Forall₂ (c5Rel (stack.zip shortApi)) cs cs' := by
  intro cs
  induction cs with
  | nil =>
    intro stat
    exact ⟨[], by simp [fixCandidatesGo, c5DupCount, c5FixCount], List.Forall₂.nil⟩
  | cons c cs ih =>
    intro stat
    have hone := fix_candidate_one_spec stack shortApi stat c hp
    by_cases hr : c.reasonType = .keyVarTerminal
    · rcases hmatch : fixMatches c (stack.zip shortApi) with _ | ⟨m, _ | ⟨q, rest⟩⟩
      · obtain ⟨cs', hgo, hrel⟩ := ih stat
        refine ⟨c :: cs', ?_, ?_⟩
        · rw [fixCandidatesGo, (hone.2 hr).1 hmatch]
          simp only [Bind.bind, Except.bind, hgo]
          have hd : c5DupCount (stack.zip shortApi) (c :: cs)
              = c5DupCount (stack.zip shortApi) cs := by
            simp [c5DupCount, List.countP_cons, hmatch]
          have hf : c5FixCount (stack.zip shortApi) (c :: cs)
              = c5FixCount (stack.zip shortApi) cs := by
            simp [c5FixCount, List.countP_cons, hmatch]
          rw [hd, hf]
        · exact List.Forall₂.cons ⟨fun _ => rfl, fun _ => by rw [hmatch]⟩ hrel
      · obtain ⟨sig, hsig, hstep⟩ := (hone.2 hr).2.1 m hmatch
        obtain ⟨cs', hgo, hrel⟩ := ih { stat with fixed_reports := stat.fixed_reports + 1 }
        refine ⟨{ c with signature := sig } :: cs', ?_, ?_⟩
        · rw [fixCandidatesGo, hstep]
          simp only [Bind.bind, Except.bind, hgo]
          have hd : c5DupCount (stack.zip shortApi) (c :: cs)
              = c5DupCount (stack.zip shortApi) cs := by
            simp [c5DupCount, List.countP_cons, hmatch]
          have hf : c5FixCount (stack.zip shortApi) (c :: cs)
              = c5FixCount (stack.zip shortApi) cs + 1 := by
            simp [c5FixCount, List.countP_cons, hmatch, hr]
          rw [hd, hf]
          have : stat.fixed_reports + 1 + c5FixCount (stack.zip shortApi) cs
              = stat.fixed_reports + (c5FixCount (stack.zip shortApi) cs + 1) := by omega
          rw [this]
        · exact List.Forall₂.cons
            ⟨fun hne => absurd hr hne, fun _ => by rw [hmatch]; exact ⟨sig, hsig, rfl⟩⟩ hrel
      · have hstep := (hone.2 hr).2.2 m q rest hmatch
        obtain ⟨cs', hgo, hrel⟩ :=
          ih { stat with fixed_failed_duplicate := stat.fixed_failed_duplicate + 1 }
        refine ⟨c :: cs', ?_, ?_⟩
        · rw [fixCandidatesGo, hstep]
          simp only [Bind.bind, Except.bind, hgo]
          have hd : c5DupCount (stack.zip shortApi) (c :: cs)
              = c5DupCount (stack.zip shortApi) cs + 1 := by
            simp [c5DupCount, List.countP_cons, hmatch, hr]
          have hf : c5FixCount (stack.zip shortApi) (c :: cs)
              = c5FixCount (stack.zip shortApi) cs := by
            simp [c5FixCount, List.countP_cons, hmatch]
          rw [hd, hf]
          have : stat.fixed_failed_duplicate + 1 + c5DupCount (stack.zip shortApi) cs
              = stat.fixed_failed_duplicate + (c5DupCount (stack.zip shortApi) cs + 1) := by
            omega
          rw [this]
        · exact List.Forall₂.cons ⟨fun hne => absurd hr hne, fun _ => by rw [hmatch]⟩ hrel
    · obtain ⟨cs', hgo, hrel⟩ := ih stat
      refine ⟨c :: cs', ?_, ?_⟩
      · rw [fixCandidatesGo, hone.1 hr]
        simp only [Bind.bind, Except.bind, hgo]
        have hd : c5DupCount (stack.zip shortApi) (c :: cs)
            = c5DupCount (stack.zip shortApi) cs := by
          simp [c5DupCount, List.countP_cons, hr]
        have hf : c5FixCount (stack.zip shortApi) (c :: cs)
            = c5FixCount (stack.zip shortApi) cs := by
          simp [c5FixCount, List.countP_cons, hr]
        rw [hd, hf]
      · exact List.Forall₂.cons ⟨fun _ => rfl, fun hkv => absurd hkv hr⟩ hrel

/-- C5: for every report whose stack-trace frames all parse,
    `_fix_candidate_signature` touches only candidates with the
    terminal-reaching reason (`KEY_VAR_TERMINAL`): such a candidate's
    signature is replaced by the parsed signature of the unique stack frame
    whose short name equals the candidate's name and whose full signature
    differs (wildcard-aware) from the candidate's — and only when that
    frame is unique; with two or more such frames the candidate is
    unchanged and the ambiguity is tallied into `fixed_failed_duplicate`;
    candidates of every other reason category are never modified. -/
theorem c5_fix_candidate_signature_spec (report : ReportInfo) (stat : FixStat)
    (hp : ∀ m ∈ report.stack_trace, (MethodSignature.from_str m).isSome) :
    ∃ cs',
      fix_candidate_signature stat report
        = .ok ({ report with candidates := cs' },
               ⟨stat.fixed_failed_duplicate
                  + c5DupCount (report.stack_trace.zip report.stack_trace_short_api)
                      report.candidates,
                stat.fixed_reports
                  + c5FixCount (report.stack_trace.zip report.stack_trace_short_api)
                      report.candidates⟩)
      ∧ List.Forall₂ (c5Rel (report.stack_trace.zip report.stack_trace_short_api))
          report.candidates cs' := by
  have hp' : ∀ p ∈ report.stack_trace.zip report.stack_trace_short_api,
      (MethodSignature.from_str p.1).isSome := by
    intro p hpz
    exact hp p.1 (List.of_mem_zip hpz).1
  obtain ⟨cs', hgo, hrel⟩ :=
    fixCandidatesGo_spec report.stack_trace report.stack_trace_short_api hp'
      report.candidates stat
  exact ⟨cs', by rw [fix_candidate_signature]; simp [Bind.bind, Except.bind, hgo], hrel⟩

/-- A terminal-reaching candidate whose tool-reported signature disagrees
    with the unique stack frame of the same short name. -/
def c5Candidate : Candidate :=
  { name := pyStr "Main.run",
    signature :=
      { package_name := pyStr "com.app", class_name := pyStr "Main",
        inner_class := none, method_name := pyStr "run",
        return_type := some (pyStr "int"), parameters := some [] },
    reasonType := .keyVarTerminal }

/-- A report whose single stack frame matches `c5Candidate`'s short name
    with a different full signature. -/
def c5Report : ReportInfo :=
  { stack_trace := [pyStr "com.app.Main: void run()"],
    stack_trace_short_api := [pyStr "Main.run"],
    candidates := [c5Candidate] }

theorem c5_fix_candidate_signature_witness :
    ∃ cs',
      fix_candidate_signature ⟨0, 0⟩ c5Report
        = .ok ({ c5Report with candidates := cs' },
               ⟨0 + c5DupCount (c5Report.stack_trace.zip c5Report.stack_trace_short_api)
                      c5Report.candidates,
                0 + c5FixCount (c5Report.stack_trace.zip c5Report.stack_trace_short_api)
                      c5Report.candidates⟩)
      ∧ List.Forall₂ (c5Rel (c5Report.stack_trace.zip c5Report.stack_trace_short_api))
          c5Report.candidates cs' :=
  c5_fix_candidate_signature_spec c5Report ⟨0, 0⟩ (by decide)

/-! ## Claim C6: single-signature source location

The source walks a tree-sitter concrete syntax tree. The tree data and the
two tree-walking helpers `find_ancestor_by_type` / `get_children_by_type`
(imported by `java_parser.py` but absent from
`utils/tree_sitter_helper.py` in this snapshot) are external to `src/`; a
method declaration is therefore modelled by the attributes those walks
extract. -/

/-- Modelled from the spec: a Java method declaration as seen by the
    structural query of `_get_method_code_in_file` and its filters — its
    identifier text, the text of the base-type node of its return type
    (`get_type_child`), the base-type texts of its formal parameters, the
    identifiers of its enclosing `class_declaration` ancestors (innermost
    first, as successive `find_ancestor_by_type` steps yield them), the
    generated anonymous-class marker comment of its enclosing class body
    (if any), and its exact source text. -/
structure JMethodDecl where
  name : Str
  returnTypeText : Str
  paramTypeTexts : List Str
  enclosingClasses : List Str
  anonMarkerComment : Option Str
  sourceText : Str
deriving Repr, DecidableEq

/-- `_type_strip` of `java_parser.py` on a single type string:
    `type_str.split(".")[-1].split("$")[-1]`. -/
def type_strip (t : Str) : Str :=
  ((t.splitOn '.').getLastD []).splitOn '$' |>.getLastD []

/-- `MethodSignature.class_list`. -/
def MethodSignature.class_list (sig : MethodSignature) : List Str :=
  sig.class_name :: (match sig.inner_class with
    | some ic => ic.splitOn '$'
    | none => [])

/-- `MethodSignature.full_class_name`. -/
def MethodSignature.full_class_name (sig : MethodSignature) : Str :=
  let base := sig.package_name ++ '.' :: sig.class_name
  match sig.inner_class with
  | some ic => base ++ '.' :: (ic.map fun c => if c = '$' then '.' else c)
  | none => base

/-- `_is_anonymous_class`: the innermost class-path segment is a (nonempty)
    all-digit synthetic index (`str.isdigit`). -/
def is_anonymous_class (sig : MethodSignature) : Bool :=
  let last := sig.class_list.getLastD []
  decide (last ≠ []) && last.all Char.isDigit

/-- `_check_anonymous_class`: the enclosing class body carries the marker
    comment `// from class: <full class name>`. -/
def check_anonymous_class (marker : Option Str) (sig : MethodSignature) : Bool :=
  match marker with
  | none => false
  | some text => decide (text = pyStr "// from class: " ++ sig.full_class_name)

/-- `_method_return_type_filter`. -/
def method_return_type_filter (methods : List JMethodDecl) (sig : MethodSignature) :
    List JMethodDecl :=
  match sig.return_type with
  | none => methods
  | some rt => methods.filter fun m => m.returnTypeText = type_strip rt

/-- `_methods_parameters_filter`. -/
def methods_parameters_filter (methods : List JMethodDecl) (sig : MethodSignature) :
    List JMethodDecl :=
  match sig.parameters with
  | none => methods
  | some ps =>
    let expected := ps.map type_strip
    methods.filter fun m =>
      decide (m.paramTypeTexts.length = expected.length)
        && (m.paramTypeTexts.zip expected).all fun pq => decide (pq.1 = pq.2)

/-- `_anonymous_class_filter`: a no-op unless the signature names an
    anonymous class; then only marker-bearing declarations survive. -/
def anonymous_class_filter (methods : List JMethodDecl) (sig : MethodSignature) :
    List JMethodDecl :=
  match sig.inner_class with
  | none => methods
  | some _ =>
    if !is_anonymous_class sig then methods
    else methods.filter fun m => check_anonymous_class m.anonMarkerComment sig

/-- `_class_name_filter`. Its preliminary loop iterates `reversed(class_list)`
    while popping from `class_list` whenever `_is_anonymous_class(signature)`
    holds (a condition that does not change while popping), so an
    anonymous-class signature empties the list (retaining every method) and
    any other signature leaves it untouched; the main loop then walks
    successive `class_declaration` ancestors and keeps a method exactly when
    the reversed class list matches them name for name. -/
def class_name_filter (methods : List JMethodDecl) (sig : MethodSignature) :
    List JMethodDecl :=
  let cl := if is_anonymous_class sig then [] else sig.class_list
  methods.filter fun m => cl.reverse.isPrefixOf m.enclosingClasses

/-- `_filter_methods`: apply the filters in order, stopping early once the
    candidate set is empty. -/
def filter_methods (methods : List JMethodDecl) (sig : MethodSignature) :
    List (List JMethodDecl → MethodSignature → List JMethodDecl) → List JMethodDecl
  | [] => methods
  | f :: fs =>
    let methods' := f methods sig
    if methods' = [] then [] else filter_methods methods' sig fs

/-- The survivors of the four-stage pipeline of `_get_method_code_in_file`,
    starting from the structural query for method declarations whose
    identifier equals the signature's method name. -/
def methodSurvivors (decls : List JMethodDecl) (sig : MethodSignature) :
    List JMethodDecl :=
  filter_methods (decls.filter fun m => decide (m.name = sig.method_name)) sig
    [method_return_type_filter, methods_parameters_filter,
     anonymous_class_filter, class_name_filter]

/-- `_get_method_code_in_file` (`none` for the file models a missing path,
    raising `CodeFileNotFoundException`). -/
def get_method_code_in_file (file : Option (List JMethodDecl)) (sig : MethodSignature) :
    Except PyExc Str :=
  match file with
  | none => .error .codeFileNotFound
  | some decls =>
    match methodSurvivors decls sig with
    | [] => .error .noMethodFound
    | [m] => .ok m.sourceText
    | _ :: _ :: _ => .error .multipleMethods

/-- The `void m(int)` overload of the spec's example file. -/
def c6IntOverload : JMethodDecl :=
  { name := pyStr "m", returnTypeText := pyStr "void",
    paramTypeTexts := [pyStr "int"], enclosingClasses := [pyStr "Cls"],
    anonMarkerComment := none, sourceText := pyStr "void m(int x) { return; }" }

/-- The `void m(long)` overload of the spec's example file. -/
def c6LongOverload : JMethodDecl :=
  { name := pyStr "m", returnTypeText := pyStr "void",
    paramTypeTexts := [pyStr "long"], enclosingClasses := [pyStr "Cls"],
    anonMarkerComment := none, sourceText := pyStr "void m(long x) { return; }" }

/-- A file containing exactly the two overloads. -/
def c6File : List JMethodDecl := [c6IntOverload, c6LongOverload]

/-- Querying `m` with parameters unspecified. -/
def c6SigUnspec : MethodSignature :=
  { package_name := pyStr "com.app", class_name := pyStr "Cls",
    inner_class := none, method_name := pyStr "m",
    return_type := none, parameters := none }

/-- Querying `m` with parameter list `[int]`. -/
def c6SigInt : MethodSignature :=
  { c6SigUnspec with parameters := some [pyStr "int"] }

/-- C6: `_get_method_code_in_file` raises `NoMethodFoundCodeError` exactly
    when no declaration survives the four-stage filter pipeline, raises
    `MultipleMethodsCodeError` exactly when more than one survives, and
    returns the unique survivor's source text otherwise; in particular, in
    a file with the two overloads `void m(int)` and `void m(long)`, querying
    `m` with parameters unspecified raises `MultipleMethodsCodeError` and
    querying with parameter list `[int]` returns the `int` overload only. -/
theorem c6_method_locator_spec :
    (∀ (decls : List JMethodDecl) (sig : MethodSignature),
      (get_method_code_in_file (some decls) sig = .error .noMethodFound
          ↔ methodSurvivors decls sig = [])
      ∧ (get_method_code_in_file (some decls) sig = .error .multipleMethods
          ↔ 2 ≤ (methodSurvivors decls sig).length)
      ∧ (∀ m, methodSurvivors decls sig = [m] →
          get_method_code_in_file (some decls) sig = .ok m.sourceText))
    ∧ get_method_code_in_file (some c6File) c6SigUnspec = .error .multipleMethods
    ∧ get_method_code_in_file (some c6File) c6SigInt = .ok c6IntOverload.sourceText := by
  refine ⟨?_, by rfl, by rfl⟩
  intro decls sig
  rcases hs : methodSurvivors decls sig with _ | ⟨m, _ | ⟨q, rest⟩⟩
  · simp [get_method_code_in_file, hs]
  · simp [get_method_code_in_file, hs]
  · simp [get_method_code_in_file, hs]

theorem c1_eq_characterization_witness :
    MethodSignature.eq c1SigNoInner c1SigInner = false ↔
      (c1SigNoInner.package_name ≠ c1SigInner.package_name
        ∨ c1SigNoInner.class_name ≠ c1SigInner.class_name
        ∨ c1SigNoInner.inner_class ≠ c1SigInner.inner_class
        ∨ c1SigNoInner.method_name ≠ c1SigInner.method_name
        ∨ (c1SigNoInner.return_type.isSome ∧ c1SigInner.return_type.isSome
            ∧ c1SigNoInner.return_type ≠ c1SigInner.return_type)
        ∨ (c1SigNoInner.parameters.isSome ∧ c1SigInner.parameters.isSome
            ∧ c1SigNoInner.parameters ≠ c1SigInner.parameters)) :=
  c1_eq_characterization c1SigNoInner c1SigInner

theorem c2_pruning_by_prefix_only_witness :
    c2Candidate ∈ (remove_useless_candidates c2Report).candidates ↔
      c2Candidate ∈ c2Report.candidates
        ∧ ¬(pyStr "access$").isPrefixOf c2Candidate.signature.method_name :=
  c2_pruning_by_prefix_only c2Report c2Candidate

theorem c6_method_locator_witness :
    get_method_code_in_file (some c6File) c6SigInt = .ok c6IntOverload.sourceText :=
  (c6_method_locator_spec.1 c6File c6SigInt).2.2 c6IntOverload (by rfl)

/-! ## Claim C10: call-graph access layer (`utils/cg.py`)

`_get_cg_file_path` dispatches on `MethodType`, a name `utils/cg.py`
imports from `utils/helper.py`; that helper module does not carry the
definition in this snapshot. Modelled from the spec: `MethodType` is the
package-ownership classification (`PackageType`, §4.1/§4.2 of the spec:
os-framework frames consult the per-version framework call graph, all
others the per-app call graph, platform-library frames none). -/

/-- The two call-graph files `config` can select
    (`config.android_cg_path(version)` / `config.apk_cg_path(apk_name)`). -/
inductive CgPath where
  | androidCg (android_version : Str) : CgPath
  | apkCg (apk_name : Str) : CgPath
deriving Repr, DecidableEq

/-- `_get_cg_file_path` of `utils/cg.py` (with `MethodType` modelled as
    `PackageType`, see above): os-framework signatures select the
    per-version framework call graph, compat-shim and application
    signatures the per-app call graph; a platform-library (`java*`)
    signature raises `ValueError`; an unparseable signature propagates
    `InvalidSignatureException` out of `get_method_type`. -/
def get_cg_file_path (signature apk_name android_version : Str) : Except PyExc CgPath :=
  match get_method_type signature with
  | none => .error .invalidSignature
  | some .android => .ok (.androidCg android_version)
  | some .androidSupport => .ok (.apkCg apk_name)
  | some .application => .ok (.apkCg apk_name)
  | some .java => .error .valueError

/-- `is_same_signature` of `utils/parser.py`. -/
def is_same_signature (s1 s2 : Str) : Bool :=
  if s1 = s2 then true
  else if stripSet (pyStr "<>") (pyTrim s1) = stripSet (pyStr "<>") (pyTrim s2) then true
  else false

/-- Python `line.split("->")` (split on every occurrence of the two-character
    separator, left to right). -/
def splitOnArrow : Str → List Str
  | [] => [[]]
  | '-' :: '>' :: rest => [] :: splitOnArrow rest
  | c :: rest =>
    match splitOnArrow rest with
    | s :: ss => (c :: s) :: ss
    | [] => [[c]]

/-- Python `set.add` on a set modelled as a duplicate-free list in
    first-insertion order. -/
def setAdd (l : List Str) (x : Str) : List Str := if x ∈ l then l else l ++ [x]

/-- The edge loop of `_get_call_methods`: each line must split into exactly
    a caller and a callee (Python tuple unpacking raises `ValueError`
    otherwise); matching lines feed the callee / caller sets. -/
def processCgLines (signature : Str) :
    List Str → List Str × List Str → Except PyExc (List Str × List Str)
  | [], acc => .ok acc
  | line :: rest, (called, callers) =>
    match splitOnArrow line with
    | [caller, callee] =>
      let called' := if is_same_signature caller signature then
          setAdd called (stripSet (pyStr "<>") (pyTrim callee)) else called
      let callers' := if is_same_signature callee signature then
          setAdd callers (stripSet (pyStr "<>") (pyTrim caller)) else callers
      processCgLines signature rest (called', callers')
    | _ => .error .valueError

/-- `_get_call_methods` of `utils/cg.py`: strip angle brackets from the
    queried signature, select the call-graph file (catching only
    `ValueError` and returning two empty sets), return two empty sets when
    the file does not exist, otherwise scan its edge lines. The file system
    is the explicit parameter `fs` (`none` = path does not exist). -/
def get_call_methods (fs : CgPath → Option (List Str))
    (signature apk_name android_version : Str) : Except PyExc (List Str × List Str) :=
  let signature := stripSet (pyStr "<>") signature
  match get_cg_file_path signature apk_name android_version with
  | .error .valueError => .ok ([], [])
  | .error e => .error e
  | .ok path =>
    match fs path with
    | none => .ok ([], [])
    | some lines => processCgLines signature lines ([], [])

/-- `get_called_methods` of `utils/cg.py`. -/
def get_called_methods_cg (fs : CgPath → Option (List Str))
    (unsafe_signature apk_name android_version : Str) : Except PyExc (List Str) :=
  (get_call_methods fs unsafe_signature apk_name android_version).map (·.1)

/-- `get_callers_method` of `utils/cg.py`. -/
def get_callers_method_cg (fs : CgPath → Option (List Str))
    (unsafe_signature apk_name android_version : Str) : Except PyExc (List Str) :=
  (get_call_methods fs unsafe_signature apk_name android_version).map (·.2)

/-- C10: for a signature whose package name starts with `java`, and likewise
    whenever the selected call-graph file does not exist, both
    `get_called_methods` and `get_callers_method` return the empty set
    without raising: the `ValueError` of call-graph-file selection is caught
    internally and converted into empty callee and caller sets. -/
theorem c10_cg_queries_empty
    (fs : CgPath → Option (List Str)) (signature apk_name android_version : Str) :
    (∀ sig, parse_signature (stripSet (pyStr "<>") signature) = some sig →
      (pyStr "java").isPrefixOf sig.package_name →
      get_called_methods_cg fs signature apk_name android_version = .ok []
        ∧ get_callers_method_cg fs signature apk_name android_version = .ok [])
    ∧ (∀ path, get_cg_file_path (stripSet (pyStr "<>") signature)
          apk_name android_version = .ok path →
        fs path = none →
        get_called_methods_cg fs signature apk_name android_version = .ok []
          ∧ get_callers_method_cg fs signature apk_name android_version = .ok []) := by
  constructor
  · intro sig hparse hjava
    have htype : get_method_type (stripSet (pyStr "<>") signature) = some .java := by
      have hj := List.isPrefixOf_iff_prefix.mp hjava
      simp [get_method_type, hparse, PackageType.ofPackageName, hj]
    have hpath : get_cg_file_path (stripSet (pyStr "<>") signature)
        apk_name android_version = .error .valueError := by
      simp [get_cg_file_path, htype]
    constructor <;>
      simp [get_called_methods_cg, get_callers_method_cg, get_call_methods, hpath,
        Except.map]
  · intro path hpath hfs
    constructor <;>
      simp [get_called_methods_cg, get_callers_method_cg, get_call_methods, hpath, hfs,
        Except.map]

/-- A call-graph file system in which no file exists. -/
def c10EmptyFs : CgPath → Option (List Str) := fun _ => none

theorem c10_cg_queries_empty_witness :
    get_called_methods_cg c10EmptyFs (pyStr "java.lang.String: void intern()")
        (pyStr "app.apk") (pyStr "9.0") = .ok []
    ∧ get_callers_method_cg c10EmptyFs (pyStr "java.lang.String: void intern()")
        (pyStr "app.apk") (pyStr "9.0") = .ok [] :=
  (c10_cg_queries_empty c10EmptyFs (pyStr "java.lang.String: void intern()")
      (pyStr "app.apk") (pyStr "9.0")).1
    { package_name := pyStr "java.lang", class_name := pyStr "String",
      inner_class := none, method_name := pyStr "intern",
      return_type := some (pyStr "void"), parameters := some [] }
    (by rfl) (by decide)

/-! ## `pre_check.report_completion`: the stack-trace resolution loop

The call graph is supplied as two oracles `called`/`callers : Str → List Str`
(the callee / caller *sets* of `utils/cg.py`, modelled as duplicate-free
lists; the file-reading layer behind them is settled separately with the
`utils/cg.py` embedding). -/

/-- `_get_ambiguous_method_indexes`: the `(start, end)` index pairs of the
    maximal runs of adjacent identical frames containing `;`, walking the
    remaining frames (fuel keeps the recursion structural; the index
    advances by at least one per step, so `remaining.length` fuel always
    completes the walk). -/
def ambiguousIndexesGo (fuel : Nat) (remaining : List Str) (index : Nat) :
    List (Nat × Nat) :=
  match fuel, remaining with
  | 0, _ => []
  | _, [] => []
  | fuel + 1, cur :: rest =>
    if cur.contains ';' then
      let ext := (rest.takeWhile (fun s => s = cur)).length
      (index, index + ext) :: ambiguousIndexesGo fuel (rest.drop ext) (index + ext + 1)
    else ambiguousIndexesGo fuel rest (index + 1)

/-- `_get_ambiguous_method_indexes` of `pre_check.report_completion`. -/
def get_ambiguous_method_indexes (trace : List Str) : List (Nat × Nat) :=
  ambiguousIndexesGo trace.length trace 0

/-- The literal pattern table of `complete_stack_trace_with_pattern`,
    keyed by the exact ambiguous-group text, then by the run length. -/
def cs_patterns : List (Str × List (Nat × List Str)) :=
  [ (pyStr "<android.app.Activity: void startActivityForResult(android.content.Intent,int,android.os.Bundle)>; <android.app.Activity: void startActivityForResult(java.lang.String,android.content.Intent,int,android.os.Bundle)>; <android.app.Activity: void startActivityForResult(android.content.Intent,int)>",
     [(2, [pyStr "android.app.Activity: void startActivityForResult(android.content.Intent,int,android.os.Bundle)",
           pyStr "android.app.Activity: void startActivityForResult(android.content.Intent,int)"])]),
    (pyStr "<android.app.Activity: void startActivity(android.content.Intent)>; <android.app.Activity: void startActivity(android.content.Intent,android.os.Bundle)>",
     [(2, [pyStr "android.app.Activity: void startActivity(android.content.Intent,android.os.Bundle)",
           pyStr "android.app.Activity: void startActivity(android.content.Intent)"])]),
    (pyStr "<android.os.Parcel: void readException(int,java.lang.String)>; <android.os.Parcel: void readException()>",
     [(1, [pyStr "android.os.Parcel: void readException(int,java.lang.String)"]),
      (2, [pyStr "android.os.Parcel: void readException(int,java.lang.String)",
           pyStr "android.os.Parcel: void readException()"])]),
    (pyStr "<android.location.LocationManager: void requestLocationUpdates(java.lang.String,long,float,android.app.PendingIntent)>; <android.location.LocationManager: void requestLocationUpdates(java.lang.String,long,float,android.location.LocationListener,android.os.Looper)>; <android.location.LocationManager: void requestLocationUpdates(java.lang.String,long,float,android.location.LocationListener)>",
     [(2, [pyStr "android.location.LocationManager: void requestLocationUpdates(java.lang.String,long,float,android.location.LocationListener,android.os.Looper)",
           pyStr "android.location.LocationManager: void requestLocationUpdates(java.lang.String,long,float,android.location.LocationListener)"])]) ]

/-- Replace the run starting at `s` with the table entry (whose length
    equals the run length, as keyed). -/
def applyPatternAt (trace : List Str) (s : Nat) (repl : List Str) : List Str :=
  trace.take s ++ repl ++ trace.drop (s + repl.length)

/-- The rewrite loop of `complete_stack_trace_with_pattern` over the
    ambiguous runs. -/
def patternRewriteGo (trace : List Str) (flag : Bool) :
    List (Nat × Nat) → List Str × Bool
  | [] => (trace, flag)
  | (s, e) :: rest =>
    let key := (trace.drop s).headD []
    match cs_patterns.lookup key with
    | some lenMap =>
      match lenMap.lookup (e - s + 1) with
      | some repl => patternRewriteGo (applyPatternAt trace s repl) true rest
      | none => patternRewriteGo trace flag rest
    | none => patternRewriteGo trace flag rest

/-- `complete_stack_trace_with_pattern` (returns the updated trace and the
    `renew_flag`). -/
def complete_stack_trace_with_pattern (trace : List Str) : List Str × Bool :=
  patternRewriteGo trace false (get_ambiguous_method_indexes trace)

/-- A Python `set` built by inserting list elements in order, modelled as
    the duplicate-free list of first occurrences (fuel keeps the recursion
    structural; `l.length` fuel always suffices since filtering only
    shortens the list). -/
def pyDedupGo : Nat → List Str → List Str
  | 0, _ => []
  | _, [] => []
  | fuel + 1, x :: xs => x :: pyDedupGo fuel (xs.filter (· ≠ x))

/-- Python `set` insertion-order deduplication. -/
def pyDedup (l : List Str) : List Str := pyDedupGo l.length l

/-- The members of an ambiguous group: split on `;`, strip whitespace and
    angle brackets, deduplicate (the Python `set`, kept in first-occurrence
    order). -/
def groupMembers (sig : Str) : List Str :=
  pyDedup ((sig.splitOn ';').map fun s => stripSet (pyStr "<>") (pyTrim s))

/-- The `next_method` dictionary and `valid_count` of
    `complete_self_invoke_trace`: a member with exactly one callee that is
    itself a member contributes an edge. -/
def buildNextMethod (cg : Str → List Str) (methods : List Str) :
    List (Str × Str) × Nat :=
  methods.foldl
    (fun acc m =>
      match cg m with
      | [x] => if x ∈ methods then (acc.1 ++ [(m, x)], acc.2 + 1) else acc
      | _ => acc)
    ([], 0)

/-- The `while invoke_list[-1] in next_method` loop. The fuel equals the
    member count: a chain that still extends after `|methods|` appends has
    visited some member twice, and since `next_method` maps each member to a
    fixed successor the Python loop then repeats that cycle forever —
    `.error .diverge` marks exactly those runs. -/
def chainFollow (next : List (Str × Str)) : Nat → Str → List Str → Except PyExc (List Str)
  | fuel, last, acc =>
    match next.lookup last with
    | none => .ok acc
    | some v =>
      match fuel with
      | 0 => .error .diverge
      | k + 1 => chainFollow next k v (acc ++ [v])

/-- The assignment loop
    `for i in range(end_index, index - 1, -1): stack_trace_reverse[i] = invoke_list.pop()`:
    it fills the run (here returned in ascending position order) from the
    tail of `invoke_list`; popping an empty list raises `IndexError`. -/
def popsFill : Nat → List Str → Except PyExc (List Str)
  | 0, _ => .ok []
  | k + 1, invoke =>
    match invoke.getLast? with
    | none => .error .indexError
    | some v => do
        let rest ← popsFill k invoke.dropLast
        .ok (rest ++ [v])

/-- The scan of `complete_self_invoke_trace` over the reversed trace
    (`left` holds the already scanned frames, most recent first): find the
    first adjacent identical pair containing `;`, extend the run, check the
    in-group call chain, and on success rewrite the run and return the
    re-reversed trace; a failed chain check resumes at the next index. -/
def selfInvokeScanGo (cg : Str → List Str) (left : List Str) :
    List Str → Except PyExc (Option (List Str))
  | [] => .ok none
  | [_] => .ok none
  | a :: b :: rest =>
    if a = b ∧ a.contains ';' = true then
      let ext := rest.takeWhile (fun s => s = a)
      let after := rest.drop ext.length
      let runLen := 2 + ext.length
      let methods := groupMembers a
      let next := buildNextMethod cg methods
      if next.2 = methods.length - 1 then
        match methods.find? (fun m => !(next.1.map Prod.snd).contains m) with
        | none => .error .indexError
        | some root =>
          match chainFollow next.1 methods.length root [root] with
          | .error e => .error e
          | .ok invoke =>
            match popsFill runLen invoke with
            | .error e => .error e
            | .ok newRun => .ok (some ((left.reverse ++ newRun ++ after).reverse))
      else selfInvokeScanGo cg (a :: left) (b :: rest)
    else selfInvokeScanGo cg (a :: left) (b :: rest)

/-- `complete_self_invoke_trace` of `pre_check.report_completion` (`.ok
    none` models the `return None` fall-through). -/
def complete_self_invoke_trace (cg : Str → List Str) (trace : List Str) :
    Except PyExc (Option (List Str)) :=
  selfInvokeScanGo cg [] trace.reverse

/-- The scan of `complete_stack_trace` over adjacent frame pairs of the
    list it is handed (already reversed or not by the caller, as in the
    source): a parseable frame followed by an ambiguous group is resolved
    when the caller's call-graph neighbour set meets the group in exactly
    one member. Returns the updated list (`none`: no rewrite, the source's
    `False`). -/
def completeStackTraceGo (call : Str → List Str) (left : List Str) :
    List Str → Option (List Str)
  | [] => none
  | [_] => none
  | a :: b :: rest =>
    match parse_signature a with
    | none => completeStackTraceGo call (a :: left) (b :: rest)
    | some _ =>
      if b.contains ';' then
        let called := call a
        let secondSet := groupMembers b
        match secondSet.filter (fun s => called.contains s) with
        | [x] => some (left.reverse ++ a :: x :: rest)
        | _ => completeStackTraceGo call (a :: left) (b :: rest)
      else completeStackTraceGo call (a :: left) (b :: rest)

/-- `complete_stack_trace` of `pre_check.report_completion`. -/
def complete_stack_trace (call : Str → List Str) (trace : List Str) :
    Option (List Str) :=
  completeStackTraceGo call [] trace

/-- One pass of the `while True` body of `report_completion`: pattern
    rewrite, then self-invocation resolution, then neighbour resolution
    deeper-to-shallower (on the reversed trace with the callee oracle) and
    shallower-to-deeper (with the caller oracle). `.ok none` models
    reaching `break`. -/
def reportCompletionStep (called callers : Str → List Str) (trace : List Str) :
    Except PyExc (Option (List Str)) :=
  match complete_stack_trace_with_pattern trace with
  | (t1, true) => .ok (some t1)
  | (_, false) =>
    match complete_self_invoke_trace called trace with
    | .error e => .error e
    | .ok (some t2) => .ok (some t2)
    | .ok none =>
      match complete_stack_trace called trace.reverse with
      | some t3 => .ok (some t3.reverse)
      | none =>
        match complete_stack_trace callers trace with
        | some t4 => .ok (some t4)
        | none => .ok none

/-- The `while True` loop, driven by explicit fuel. -/
def reportCompletionLoop (called callers : Str → List Str) :
    Nat → List Str → Except PyExc (List Str)
  | 0, _ => .error .fuelExhausted
  | fuel + 1, trace =>
    match reportCompletionStep called callers trace with
    | .error e => .error e
    | .ok none => .ok trace
    | .ok (some trace') => reportCompletionLoop called callers fuel trace'

/-- `report_completion`'s resolution loop on a stack trace. The source runs
    an unbounded `while True`; every rewriting pass strictly reduces the
    number of frames containing `;`, so `length + 1` passes always reach
    either the `break` or one of the genuine failure modes modelled in
    `PyExc` (`.fuelExhausted` is the embedding's off-ramp and is not
    reachable from those semantics). -/
def report_completion (called callers : Str → List Str) (trace : List Str) :
    Except PyExc (List Str) :=
  reportCompletionLoop called callers (trace.length + 1) trace

/-! ## Claim C9: (un)boundedness of the resolution loop -/

/-- An ambiguous group of four members. -/
def c9Group : Str :=
  pyStr "<a.A: void a()>; <a.B: void b()>; <a.C: void c()>; <a.D: void d()>"

/-- A trace consisting of an adjacent identical pair of that group. -/
def c9Trace : List Str := [c9Group, c9Group]

/-- A call graph with the in-group cycle `A → B → C → B`. -/
def c9Called : Str → List Str := fun s =>
  if s = pyStr "a.A: void a()" then [pyStr "a.B: void b()"]
  else if s = pyStr "a.B: void b()" then [pyStr "a.C: void c()"]
  else if s = pyStr "a.C: void c()" then [pyStr "a.B: void b()"]
  else []

/-- The caller oracle (never consulted on this input). -/
def c9Callers : Str → List Str := fun _ => []

/-- C9: the resolution loop of `report_completion` is NOT bounded: on a
    pathological cyclic call graph the chain-follow loop inside
    `complete_self_invoke_trace` (`while invoke_list[-1] in next_method`)
    appends `B, C, B, C, …` forever.  `.error .diverge` marks exactly that
    provable non-termination (see `chainFollow`); no iteration cap exists
    and no fatal resolution failure is ever reported. -/
theorem c9_resolution_loop_diverges :
    complete_self_invoke_trace c9Called c9Trace = .error .diverge
    ∧ report_completion c9Called c9Callers c9Trace = .error .diverge :=
  ⟨rfl, rfl⟩

/-! ## Claim C4: self-invocation run resolution -/

/-- The three-member ambiguous group `{A, B, C}` of the claim, with
    `A = a.A: void a()`, `B = a.B: void b()`, `C = a.C: void c()`. -/
def c4Group : Str := pyStr "<a.A: void a()>; <a.B: void b()>; <a.C: void c()>"

/-- A run of three adjacent identical copies of the group. -/
def c4Trace : List Str := [c4Group, c4Group, c4Group]

/-- Call-graph edges `A → B` and `B → C`; `C` has no outgoing edge. -/
def c4Called : Str → List Str := fun s =>
  if s = pyStr "a.A: void a()" then [pyStr "a.B: void b()"]
  else if s = pyStr "a.B: void b()" then [pyStr "a.C: void c()"]
  else []

/-- C4 counterexample: the run is rewritten to `[C, B, A]` in trace order
    (the trace lists the innermost frame first, so the chain root `A` ends
    up in the outermost position), not to `[A, B, C]` as claimed. -/
theorem c4_run_resolved_callee_first :
    complete_self_invoke_trace c4Called c4Trace
      = .ok (some [pyStr "a.C: void c()", pyStr "a.B: void b()", pyStr "a.A: void a()"])
    ∧ [pyStr "a.C: void c()", pyStr "a.B: void b()", pyStr "a.A: void a()"]
      ≠ [pyStr "a.A: void a()", pyStr "a.B: void b()", pyStr "a.C: void c()"] :=
  ⟨rfl, by decide⟩

/-! ## Claim C8: ordering of the exception-info check in `pre_check` -/

/-- A raw buggy-method candidate record, restricted to the keys the
    embedded prefix of `pre_check` reads: `Candidate Signature` and, per
    entry of `Reasons`, the optional `M_app Is Terminate?` flag. -/
structure RawCandidate where
  candidateSignature : Str
  reasonsTerminate : List (Option Bool)
deriving Repr, DecidableEq

/-- The `Fault Localization by CrashTracker` section: `Exception Info` (an
    optional dictionary, here an association list) and `Buggy Method
    Candidates` (optional: a missing key raises `KeyError`). -/
structure FaultLocalization where
  exceptionInfo : Option (List (Str × Str))
  buggyMethodCandidates : Option (List RawCandidate)
deriving Repr, DecidableEq

/-- The `Crash Info in Dataset` keys the embedded prefix reads. -/
structure CrashInfo where
  apkName : Str
  targetSdkVersion : Int
  stackTraceSignature : List Str
  stackTrace : List Str
deriving Repr, DecidableEq

/-- A raw crash record (`report` dict) with the keys `pre_check` touches up
    to the terminal-API lookup; `faultLocalization = none` models the
    `Fault Localization by CrashTracker` key being absent. -/
structure RawReport where
  faultLocalization : Option FaultLocalization
  crashInfo : CrashInfo
deriving Repr, DecidableEq

/-- `_check_exception_info_exist` of `pre_check.py`: reject when the fault
    localization section, its `Exception Info` key, or the exception-info
    dictionary's entries are missing/empty. (Defined in the source — but
    never called by `pre_check`.) -/
def check_exception_info_exist (report : RawReport) : Except PyExc Unit :=
  match report.faultLocalization with
  | none => .error .emptyExceptionInfo
  | some fl =>
    match fl.exceptionInfo with
    | none => .error .emptyExceptionInfo
    | some info =>
      if info.length = 0 then .error .emptyExceptionInfo else .ok ()

/-- `_get_android_version`: consult
    `report["Fault Localization by CrashTracker"]["Exception Info"]` (a
    missing key raises `KeyError`) for the framework version, falling back
    to the manifest target-SDK table. -/
def get_android_version (report : RawReport) : Except PyExc Str :=
  match report.faultLocalization with
  | none => .error .keyError
  | some fl =>
    match fl.exceptionInfo with
    | none => .error .keyError
    | some info =>
      match info.lookup (pyStr "Target Version of Framework") with
      | some v => .ok v
      | none =>
        let v := report.crashInfo.targetSdkVersion
        .ok (pyStr
          (if v ≤ 8 then "2.2"
           else if v < 19 then "2.3"
           else if v < 21 then "4.4"
           else if v < 23 then "5.0"
           else if v < 24 then "6.0"
           else if v < 26 then "7.0"
           else if v < 28 then "8.0"
           else if v < 29 then "9.0"
           else if v < 30 then "10.0"
           else if v < 31 then "11.0"
           else "12.0"))

/-- `report_completion` on the raw record: it reads the apk name, calls
    `_get_android_version` (which can raise `KeyError`), then resolves the
    `stack trace signature` list in place. -/
def report_completion_raw (called callers : Str → List Str) (report : RawReport) :
    Except PyExc RawReport := do
  let _ ← get_android_version report
  let trace ← report_completion called callers report.crashInfo.stackTraceSignature
  .ok { report with crashInfo.stackTraceSignature := trace }

/-- `_find_terminal_api`: the signature of the first candidate one of whose
    reasons carries `M_app Is Terminate?: true`. -/
def find_terminal_api (candidates : List RawCandidate) : Option Str :=
  candidates.findSome? fun c =>
    if c.reasonsTerminate.any (fun r => r = some true) then
      some c.candidateSignature
    else none

/-- The faithful prefix of `pre_check` (lines 456–472): stack-trace
    resolution, bracket stripping, framework-stack classification, the
    entry-API selection `framework_trace[-1]`, and the terminal-API lookup
    on `Buggy Method Candidates`; the later candidate-construction and
    code-existence stages are beyond what claim C8 turns on. -/
def pre_check_prefix (called callers : Str → List Str) (report : RawReport) :
    Except PyExc (List Str × List Str × List Str × List Str × Str × Option Str) := do
  let report ← report_completion_raw called callers report
  let stack_trace := report.crashInfo.stackTraceSignature.map (stripSet (pyStr "<>"))
  let stack_trace_short_api := report.crashInfo.stackTrace
  let (ft, fs) ← get_and_check_framework_stack stack_trace stack_trace_short_api
  let entry ← framework_entry_api ft
  let candidates ←
    match report.faultLocalization with
    | none => Except.error PyExc.keyError
    | some fl =>
      match fl.buggyMethodCandidates with
      | none => Except.error PyExc.keyError
      | some cs => Except.ok cs
  let terminal := find_terminal_api candidates
  .ok (stack_trace, stack_trace_short_api, ft, fs, entry, terminal)

/-- A raw record whose `Exception Info` dictionary is present but empty,
    with one ambiguous frame that only the call graph can resolve. -/
def c8Report : RawReport :=
  { faultLocalization := some
      { exceptionInfo := some []
        buggyMethodCandidates := some
          [{ candidateSignature := pyStr "com.app.Main: void run()"
             reasonsTerminate := [none] }] }
    crashInfo :=
      { apkName := pyStr "app.apk"
        targetSdkVersion := 30
        stackTraceSignature :=
          [pyStr "<android.view.V: void h()>",
           pyStr "<x.Y: void g()>; <x.Y: void g(int)>",
           pyStr "<com.app.Main: void run()>"]
        stackTrace := [pyStr "V.h", pyStr "Y.g", pyStr "Main.run"] } }

/-- A call graph resolving the ambiguous frame to `x.Y: void g()`. -/
def c8Called1 : Str → List Str := fun s =>
  if s = pyStr "<com.app.Main: void run()>" then [pyStr "x.Y: void g()"] else []

/-- A call graph resolving the ambiguous frame to `x.Y: void g(int)`. -/
def c8Called2 : Str → List Str := fun s =>
  if s = pyStr "<com.app.Main: void run()>" then [pyStr "x.Y: void g(int)"] else []

/-- The caller oracle (never consulted on this input). -/
def c8Callers : Str → List Str := fun _ => []

/-- The prefix output under `c8Called1`. -/
def c8Out1 : List Str × List Str × List Str × List Str × Str × Option Str :=
  ([pyStr "android.view.V: void h()", pyStr "x.Y: void g()",
    pyStr "com.app.Main: void run()"],
   [pyStr "V.h", pyStr "Y.g", pyStr "Main.run"],
   [pyStr "android.view.V: void h()"], [pyStr "V.h"],
   pyStr "android.view.V: void h()", none)

/-- The prefix output under `c8Called2`. -/
def c8Out2 : List Str × List Str × List Str × List Str × Str × Option Str :=
  ([pyStr "android.view.V: void h()", pyStr "x.Y: void g(int)",
    pyStr "com.app.Main: void run()"],
   [pyStr "V.h", pyStr "Y.g", pyStr "Main.run"],
   [pyStr "android.view.V: void h()"], [pyStr "V.h"],
   pyStr "android.view.V: void h()", none)

/-- C8: `pre_check` never performs the empty-exception-info check.  On a
    record whose `Exception Info` is empty — which the (dead)
    `_check_exception_info_exist` would reject — the pipeline runs
    `report_completion` first and to completion, consulting the call graph
    (the output depends on the call-graph oracle), and raises no
    `EmptyExceptionInfoException` at any point of the claim's scope. -/
theorem c8_exception_check_never_runs :
    check_exception_info_exist c8Report = .error .emptyExceptionInfo
    ∧ pre_check_prefix c8Called1 c8Callers c8Report = .ok c8Out1
    ∧ pre_check_prefix c8Called2 c8Callers c8Report = .ok c8Out2
    ∧ c8Out1 ≠ c8Out2 :=
  ⟨rfl, rfl, rfl, fun h => absurd (congrArg Prod.fst h) (by decide)⟩

/-! ### C4 (amended): general self-invocation run resolution -/

/-- The textual ambiguous group `"<A>; <B>; <C>"` built from three member
    signatures. -/
def mkGroup (A B C : Str) : Str :=
  List.intercalate [';'] ['<' :: A ++ ['>'], ' ' :: '<' :: B ++ ['>'], ' ' :: '<' :: C ++ ['>']]

/-- A member signature is group-safe when it carries no `;` and does not
    begin or end with an angle bracket (so that splitting and stripping
    recover it exactly). -/
def GroupSafe (A : Str) : Prop :=
  (';' : Char) ∉ A
    ∧ (∀ c ∈ A.head?, c ≠ '<' ∧ c ≠ '>')
    ∧ (∀ c ∈ A.getLast?, c ≠ '<' ∧ c ≠ '>')

theorem pyTrim_angle (A : Str) : pyTrim ('<' :: A ++ ['>']) = '<' :: A ++ ['>'] := by
  have h1 : ('<' :: A ++ ['>']).dropWhile Char.isWhitespace = '<' :: A ++ ['>'] := by
    simp [List.dropWhile_cons]
  have h2 : ('<' :: A ++ ['>']).reverse = '>' :: (A.reverse ++ ['<']) := by
    simp
  rw [pyTrim, h1, h2]
  simp [List.dropWhile_cons]

theorem pyTrim_space_angle (B : Str) :
    pyTrim (' ' :: '<' :: B ++ ['>']) = '<' :: B ++ ['>'] := by
  have h1 : (' ' :: '<' :: B ++ ['>']).dropWhile Char.isWhitespace
      = '<' :: B ++ ['>'] := by
    simp [List.dropWhile_cons]
  have h2 : ('<' :: B ++ ['>']).reverse = '>' :: (B.reverse ++ ['<']) := by
    simp
  rw [pyTrim, h1, h2]
  simp [List.dropWhile_cons]

theorem stripSet_angle_pred :
    (fun c => (pyStr "<>").contains c) = fun c : Char => decide (c = '<' ∨ c = '>') := by
  funext c
  show (['<', '>'].contains c) = _
  simp only [List.contains, List.elem_eq_mem]
  rw [decide_eq_decide]
  simp

theorem stripSet_angles (A : Str)
    (hh : ∀ c ∈ A.head?, c ≠ '<' ∧ c ≠ '>')
    (hl : ∀ c ∈ A.getLast?, c ≠ '<' ∧ c ≠ '>') :
    stripSet (pyStr "<>") ('<' :: A ++ ['>']) = A := by
  rw [stripSet, show ((pyStr "<>").contains ·) = fun c : Char => decide (c = '<' ∨ c = '>')
    from stripSet_angle_pred]
  cases A with
  | nil => rfl
  | cons a A' =>
    obtain ⟨ha1, ha2⟩ := hh a (by simp)
    have hcrev : ∃ c t, (a :: A').reverse = c :: t ∧ (a :: A').getLast? = some c := by
      rcases hrev : (a :: A').reverse with _ | ⟨c, t⟩
      · exact absurd (congrArg List.length hrev) (by simp)
      · refine ⟨c, t, rfl, ?_⟩
        rw [← List.head?_reverse, hrev]
        rfl
    obtain ⟨c, t, hrev, hgl⟩ := hcrev
    obtain ⟨hc1, hc2⟩ := hl c (by simp [hgl])
    have step1 : List.dropWhile (fun c : Char => decide (c = '<' ∨ c = '>'))
        ('<' :: (a :: A') ++ ['>']) = (a :: A') ++ ['>'] := by
      simp [List.dropWhile_cons, ha1, ha2]
    rw [step1]
    have step2 : ((a :: A') ++ ['>']).reverse = '>' :: (a :: A').reverse := by
      simp
    rw [step2]
    have step3 : List.dropWhile (fun c : Char => decide (c = '<' ∨ c = '>'))
        ('>' :: (a :: A').reverse) = (a :: A').reverse := by
      rw [List.dropWhile_cons]
      simp only [decide_eq_true_eq]
      rw [if_pos (by tauto), hrev, List.dropWhile_cons]
      simp [hc1, hc2, ← hrev]
    rw [step3, List.reverse_reverse]

theorem pyDedup_three (A B C : Str) (hAB : A ≠ B) (hAC : A ≠ C) (hBC : B ≠ C) :
    pyDedup [A, B, C] = [A, B, C] := by
  have h1 : B ≠ A := Ne.symm hAB
  have h2 : C ≠ A := Ne.symm hAC
  have h3 : C ≠ B := Ne.symm hBC
  simp [pyDedup, pyDedupGo, List.filter_cons, h1, h2, h3]

theorem mkGroup_split (A B C : Str)
    (hA : (';' : Char) ∉ A) (hB : (';' : Char) ∉ B) (hC : (';' : Char) ∉ C) :
    (mkGroup A B C).splitOn ';' =
      ['<' :: A ++ ['>'], ' ' :: '<' :: B ++ ['>'], ' ' :: '<' :: C ++ ['>']] := by
  rw [mkGroup]
  apply List.splitOn_intercalate
  · intro l hl
    simp only [List.mem_cons, List.mem_singleton] at hl
    rcases hl with h | h | h | h
    · subst h
      simp [hA]
    · subst h
      simp [hB]
    · subst h
      simp [hC]
    · exact absurd h (by simp)
  · simp

theorem groupMembers_mk (A B C : Str)
    (hA : GroupSafe A) (hB : GroupSafe B) (hC : GroupSafe C)
    (hAB : A ≠ B) (hAC : A ≠ C) (hBC : B ≠ C) :
    groupMembers (mkGroup A B C) = [A, B, C] := by
  rw [groupMembers, mkGroup_split A B C hA.1 hB.1 hC.1]
  have e1 : stripSet (pyStr "<>") (pyTrim ('<' :: A ++ ['>'])) = A := by
    rw [pyTrim_angle, stripSet_angles A hA.2.1 hA.2.2]
  have e2 : stripSet (pyStr "<>") (pyTrim (' ' :: '<' :: B ++ ['>'])) = B := by
    rw [pyTrim_space_angle, stripSet_angles B hB.2.1 hB.2.2]
  have e3 : stripSet (pyStr "<>") (pyTrim (' ' :: '<' :: C ++ ['>'])) = C := by
    rw [pyTrim_space_angle, stripSet_angles C hC.2.1 hC.2.2]
  simp only [List.map_cons, List.map_nil, e1, e2, e3]
  exact pyDedup_three A B C hAB hAC hBC

theorem buildNextMethod_chain (cg : Str → List Str) (A B C : Str)
    (hcgA : cg A = [B]) (hcgB : cg B = [C])
    (hcgC : ∀ x, cg C = [x] → x ≠ A ∧ x ≠ B ∧ x ≠ C) :
    buildNextMethod cg [A, B, C] = ([(A, B), (B, C)], 2) := by
  rw [buildNextMethod]
  simp only [List.foldl_cons, List.foldl_nil, hcgA, hcgB]
  rcases hcg3 : cg C with _ | ⟨x, _ | ⟨y, ys⟩⟩
  · simp
  · obtain ⟨hx1, hx2, hx3⟩ := hcgC x hcg3
    simp [hx1, hx2, hx3]
  · simp

theorem popsFill_self : ∀ l : List Str, popsFill l.length l = .ok l := by
  intro l
  induction l using List.reverseRecOn with
  | nil => rfl
  | append_singleton xs x ih =>
    have hlen : (xs ++ [x]).length = xs.length + 1 := by simp
    rw [hlen, popsFill, List.getLast?_concat, List.dropLast_concat]
    simp only [ih, Bind.bind, Except.bind]

theorem chainFollow_three (A B C : Str) (hAB : A ≠ B) (hAC : A ≠ C) (hBC : B ≠ C) :
    chainFollow [(A, B), (B, C)] 3 A [A] = .ok [A, B, C] := by
  have nBA : (B == A) = false := beq_eq_false_iff_ne.mpr (Ne.symm hAB)
  have nCA : (C == A) = false := beq_eq_false_iff_ne.mpr (Ne.symm hAC)
  have nCB : (C == B) = false := beq_eq_false_iff_ne.mpr (Ne.symm hBC)
  rw [chainFollow]
  simp only [List.lookup, beq_self_eq_true]
  rw [chainFollow]
  simp only [List.lookup, nBA, beq_self_eq_true]
  rw [chainFollow]
  simp only [List.lookup, nCA, nCB]
  simp

theorem selfInvokeScanGo_append (cg : Str → List Str) :
    ∀ (l1 : List Str), (∀ s ∈ l1, s.contains ';' = false) →
      ∀ left rest, selfInvokeScanGo cg left (l1 ++ rest)
        = selfInvokeScanGo cg (l1.reverse ++ left) rest := by
  intro l1
  induction l1 with
  | nil => intro _ left rest; simp
  | cons x l1' ih =>
    intro h left rest
    have hx := h x (by simp)
    have h' : ∀ s ∈ l1', s.contains ';' = false := fun s hs => h s (by simp [hs])
    cases hlr : l1' ++ rest with
    | nil =>
      obtain ⟨h1, h2⟩ := List.append_eq_nil.mp hlr
      subst h1
      subst h2
      simp [selfInvokeScanGo]
    | cons b r =>
      have hstep : selfInvokeScanGo cg left (x :: l1' ++ rest)
          = selfInvokeScanGo cg (x :: left) (b :: r) := by
        rw [List.cons_append, hlr, selfInvokeScanGo]
        rw [if_neg (by
          intro hcond
          rw [hx] at hcond
          exact absurd hcond.2 (by simp))]
      rw [hstep, ← hlr, ih h' (x :: left) rest]
      simp

/-- C4 (amended): on a maximal run of three adjacent identical ambiguous
    groups with member set `{A, B, C}`, call-graph edges `A → B`, `B → C`
    and no qualifying out-edge for `C`, self-invocation resolution replaces
    the run frame-for-frame with the chain laid out callee-first —
    `[C, B, A]` in trace order (the trace lists the innermost frame first),
    not `[A, B, C]` — preserving the frame count and the member set of the
    run. -/
theorem c4_self_invoke_chain_resolution (A B C : Str) (pre suf : List Str)
    (cg : Str → List Str)
    (hA : GroupSafe A) (hB : GroupSafe B) (hC : GroupSafe C)
    (hAB : A ≠ B) (hAC : A ≠ C) (hBC : B ≠ C)
    (hcgA : cg A = [B]) (hcgB : cg B = [C])
    (hcgC : ∀ x, cg C = [x] → x ≠ A ∧ x ≠ B ∧ x ≠ C)
    (hpre : ∀ s ∈ pre, s.contains ';' = false)
    (hsuf : ∀ s ∈ suf, s.contains ';' = false) :
    complete_self_invoke_trace cg
        (pre ++ [mkGroup A B C, mkGroup A B C, mkGroup A B C] ++ suf)
      = .ok (some (pre ++ [C, B, A] ++ suf))
    ∧ ([C, B, A] : List Str).length
        = ([mkGroup A B C, mkGroup A B C, mkGroup A B C] : List Str).length
    ∧ ([C, B, A] : List Str).Perm [A, B, C] := by
  have hgsemi : (mkGroup A B C).contains ';' = true := by
    have hmem : (';' : Char) ∈ mkGroup A B C := by
      rw [mkGroup]
      simp [List.intercalate, List.intersperse]
    simp [List.contains, List.elem_eq_mem, hmem]
  have hne_g : ∀ s, s.contains ';' = false → s ≠ mkGroup A B C := by
    intro s hs he
    rw [he, hgsemi] at hs
    exact absurd hs (by simp)
  refine ⟨?_, by simp, by simpa using (List.reverse_perm [A, B, C])⟩
  rw [complete_self_invoke_trace]
  have hrev : (pre ++ [mkGroup A B C, mkGroup A B C, mkGroup A B C] ++ suf).reverse
      = suf.reverse ++ (mkGroup A B C :: mkGroup A B C :: mkGroup A B C :: pre.reverse) := by
    simp
  rw [hrev, selfInvokeScanGo_append cg suf.reverse
    (fun s hs => hsuf s (List.mem_reverse.mp hs)) []
    (mkGroup A B C :: mkGroup A B C :: mkGroup A B C :: pre.reverse)]
  simp only [List.reverse_reverse, List.append_nil]
  rw [selfInvokeScanGo, if_pos ⟨rfl, hgsemi⟩]
  have hext : (mkGroup A B C :: pre.reverse).takeWhile
      (fun s => decide (s = mkGroup A B C)) = [mkGroup A B C] := by
    rw [List.takeWhile_cons]
    have htw : pre.reverse.takeWhile (fun s => decide (s = mkGroup A B C)) = [] := by
      cases hpr : pre.reverse with
      | nil => rfl
      | cons p0 pr =>
        rw [List.takeWhile_cons]
        have hp0 : p0 ∈ pre := by
          rw [← List.mem_reverse, hpr]
          simp
        simp [hne_g p0 (hpre p0 hp0)]
    simp [htw]
  simp only [hext, List.length_cons, List.length_nil, List.drop_succ_cons,
    List.drop_zero]
  rw [groupMembers_mk A B C hA hB hC hAB hAC hBC,
    buildNextMethod_chain cg A B C hcgA hcgB hcgC]
  have hvc : (([(A, B), (B, C)], 2) : List (Str × Str) × Nat).2
      = ([A, B, C] : List Str).length - 1 := by simp
  rw [if_pos hvc]
  have hfind : (([A, B, C] : List Str).find? fun m =>
      !(([(A, B), (B, C)] : List (Str × Str)).map Prod.snd).contains m) = some A := by
    have hAmem : (([B, C] : List Str).contains A) = false := by
      have : A ∉ ([B, C] : List Str) := by simp [hAB, hAC]
      simp [List.contains, List.elem_eq_mem, this]
    simp only [List.map_cons, List.map_nil]
    rw [List.find?]
    simp [hAmem, hAB, hAC]
  rw [hfind]
  have hchain : chainFollow [(A, B), (B, C)] ([A, B, C] : List Str).length A [A]
      = .ok [A, B, C] := by
    simpa using chainFollow_three A B C hAB hAC hBC
  have hpf : popsFill (2 + (0 + 1)) ([A, B, C] : List Str) = .ok [A, B, C] := by
    simpa using popsFill_self [A, B, C]
  simp only [hchain, hpf]
  simp

theorem c4_self_invoke_chain_resolution_witness :
    complete_self_invoke_trace c4Called
        ([pyStr "p.P: void p()"]
          ++ [mkGroup (pyStr "a.A: void a()") (pyStr "a.B: void b()") (pyStr "a.C: void c()"),
              mkGroup (pyStr "a.A: void a()") (pyStr "a.B: void b()") (pyStr "a.C: void c()"),
              mkGroup (pyStr "a.A: void a()") (pyStr "a.B: void b()") (pyStr "a.C: void c()")]
          ++ [pyStr "s.S: void s()"])
      = .ok (some ([pyStr "p.P: void p()"]
          ++ [pyStr "a.C: void c()", pyStr "a.B: void b()", pyStr "a.A: void a()"]
          ++ [pyStr "s.S: void s()"]))
    ∧ ([pyStr "a.C: void c()", pyStr "a.B: void b()", pyStr "a.A: void a()"] : List Str).length
        = ([mkGroup (pyStr "a.A: void a()") (pyStr "a.B: void b()") (pyStr "a.C: void c()"),
            mkGroup (pyStr "a.A: void a()") (pyStr "a.B: void b()") (pyStr "a.C: void c()"),
            mkGroup (pyStr "a.A: void a()") (pyStr "a.B: void b()") (pyStr "a.C: void c()")] : List Str).length
    ∧ ([pyStr "a.C: void c()", pyStr "a.B: void b()", pyStr "a.A: void a()"] : List Str).Perm
        [pyStr "a.A: void a()", pyStr "a.B: void b()", pyStr "a.C: void c()"] :=
  c4_self_invoke_chain_resolution
    (pyStr "a.A: void a()") (pyStr "a.B: void b()") (pyStr "a.C: void c()")
    [pyStr "p.P: void p()"] [pyStr "s.S: void s()"] c4Called
    ⟨by decide, by decide, by decide⟩ ⟨by decide, by decide, by decide⟩
    ⟨by decide, by decide, by decide⟩
    (by decide) (by decide) (by decide)
    (by rfl) (by rfl)
    (by
      intro x hx
      rw [show c4Called (pyStr "a.C: void c()") = [] from rfl] at hx
      exact absurd hx (by simp))
    (by decide) (by decide)

/-! ## Claim C7: parse/stringify round trip -/

theorem wordChar_not_ws (c : Char) (h : isWordChar c = true) : c.isWhitespace = false := by
  cases hw : c.isWhitespace with
  | false => rfl
  | true =>
    exfalso
    have hc : c = ' ' ∨ c = '\t' ∨ c = '\r' ∨ c = '\n' := by
      simp only [Char.isWhitespace, Bool.or_eq_true, decide_eq_true_eq] at hw
      tauto
    rcases hc with rfl | rfl | rfl | rfl <;> revert h <;> decide

theorem nameChar_not_ws (c : Char) (h : isNameChar c = true) : c.isWhitespace = false := by
  rcases Bool.or_eq_true_iff.mp h with h1 | h1
  · exact wordChar_not_ws c h1
  · simp only [decide_eq_true_eq] at h1
    subst h1
    decide

theorem wordChar_ne_dot (c : Char) (h : isWordChar c = true) : c ≠ '.' := by
  intro hc
  subst hc
  revert h
  decide

theorem takeWhile_append_all (p : Char → Bool) (xs ys : Str)
    (h : ∀ x ∈ xs, p x = true) :
    (xs ++ ys).takeWhile p = xs ++ ys.takeWhile p := by
  induction xs with
  | nil => simp
  | cons x xs ih =>
    have hx := h x (by simp)
    rw [List.cons_append, List.takeWhile_cons, hx]
    simp only [if_true]
    rw [ih fun y hy => h y (by simp [hy])]
    rfl

theorem takeWhile_cons_neg (p : Char → Bool) (y : Char) (ys : Str) (h : p y = false) :
    (y :: ys).takeWhile p = [] := by
  simp [List.takeWhile_cons, h]

theorem firstSome_append (l1 l2 : List α) (f : α → Option β) :
    firstSome (l1 ++ l2) f =
      match firstSome l1 f with
      | some b => some b
      | none => firstSome l2 f := by
  induction l1 with
  | nil => simp [firstSome]
  | cons a l1 ih =>
    rw [List.cons_append, firstSome, firstSome]
    cases f a with
    | some b => rfl
    | none => exact ih

theorem firstSome_append_none (l1 l2 : List α) (f : α → Option β)
    (h : firstSome l1 f = none) : firstSome (l1 ++ l2) f = firstSome l2 f := by
  rw [firstSome_append, h]

theorem firstSome_append_some (l1 l2 : List α) (f : α → Option β) (b : β)
    (h : firstSome l1 f = some b) : firstSome (l1 ++ l2) f = some b := by
  rw [firstSome_append, h]

theorem firstSome_eq_none (l : List α) (f : α → Option β) (h : ∀ x ∈ l, f x = none) :
    firstSome l f = none := by
  induction l with
  | nil => rfl
  | cons a l ih =>
    rw [firstSome, h a (by simp)]
    exact ih fun x hx => h x (by simp [hx])

theorem range_split (M n : Nat) (h : n ≤ M) :
    List.range M = List.range' 0 (M - n) ++ List.range' (M - n) n := by
  rw [List.range_eq_range']
  have hMeq : M = n + (M - n) := by omega
  conv_lhs => rw [hMeq]
  rw [← List.range'_append]
  simp

/-- Resolution of a greedy `p+` group: the regex search settles on the split
    at `n` provided every longer split makes the continuation fail and the
    split at `n` makes it succeed. -/
theorem firstSome_runsDesc_spec (p : Char → Bool) (s : Str) (k : Str × Str → Option β)
    (n : Nat) (b : β)
    (h1 : 1 ≤ n) (h2 : n ≤ (s.takeWhile p).length)
    (hfail : ∀ L, n < L → L ≤ (s.takeWhile p).length →
      k ((s.takeWhile p).take L, s.drop L) = none)
    (hsucc : k ((s.takeWhile p).take n, s.drop n) = some b) :
    firstSome (runsDesc p s) k = some b := by
  have hunfold : runsDesc p s = (List.range (s.takeWhile p).length).map
      (fun i => ((s.takeWhile p).take ((s.takeWhile p).length - i),
                 s.drop ((s.takeWhile p).length - i))) := rfl
  rw [hunfold, range_split ((s.takeWhile p).length) n h2, List.map_append]
  rw [firstSome_append_none]
  · have hn : List.range' ((s.takeWhile p).length - n) n
        = ((s.takeWhile p).length - n)
            :: List.range' ((s.takeWhile p).length - n + 1) (n - 1) := by
      cases n with
      | zero => omega
      | succ k =>
        simp [List.range'_succ]
    rw [hn, List.map_cons, firstSome]
    have heq : (s.takeWhile p).length - ((s.takeWhile p).length - n) = n := by omega
    rw [heq, hsucc]
  · apply firstSome_eq_none
    intro x hx
    simp only [List.mem_map, List.mem_range'_1] at hx
    obtain ⟨i, hi, hxe⟩ := hx
    subst hxe
    exact hfail ((s.takeWhile p).length - i) (by omega) (by omega)

theorem pyTrim_eq_self (s : Str)
    (h1 : ∀ c ∈ s.head?, c.isWhitespace = false)
    (h2 : ∀ c ∈ s.getLast?, c.isWhitespace = false) : pyTrim s = s := by
  cases s with
  | nil => rfl
  | cons a t =>
    have ha := h1 a (by simp)
    have hcrev : ∃ c u, (a :: t).reverse = c :: u ∧ (a :: t).getLast? = some c := by
      rcases hrev : (a :: t).reverse with _ | ⟨c, u⟩
      · exact absurd (congrArg List.length hrev) (by simp)
      · refine ⟨c, u, rfl, ?_⟩
        rw [← List.head?_reverse, hrev]
        rfl
    obtain ⟨c, u, hrev, hgl⟩ := hcrev
    have hc := h2 c (by simp [hgl])
    rw [pyTrim]
    rw [List.dropWhile_cons, ha]
    simp only [Bool.false_eq_true, if_false]
    rw [hrev, List.dropWhile_cons, hc]
    simp only [Bool.false_eq_true, if_false]
    rw [← hrev, List.reverse_reverse]

theorem stripSet_eq_self (cs s : Str)
    (h1 : ∀ c ∈ s.head?, cs.contains c = false)
    (h2 : ∀ c ∈ s.getLast?, cs.contains c = false) : stripSet cs s = s := by
  cases s with
  | nil => rfl
  | cons a t =>
    have ha := h1 a (by simp)
    have hcrev : ∃ c u, (a :: t).reverse = c :: u ∧ (a :: t).getLast? = some c := by
      rcases hrev : (a :: t).reverse with _ | ⟨c, u⟩
      · exact absurd (congrArg List.length hrev) (by simp)
      · refine ⟨c, u, rfl, ?_⟩
        rw [← List.head?_reverse, hrev]
        rfl
    obtain ⟨c, u, hrev, hgl⟩ := hcrev
    have hc := h2 c (by simp [hgl])
    rw [stripSet]
    rw [List.dropWhile_cons]
    simp only [ha, Bool.false_eq_true, if_false]
    rw [hrev, List.dropWhile_cons]
    simp only [hc, Bool.false_eq_true, if_false]
    rw [← hrev, List.reverse_reverse]

theorem match_dot_head (f : Str → Option β) (c : Char) (t : Str) (hc : c ≠ '.') :
    (match c :: t with
     | '.' :: r2 => f r2
     | _ => none) = (none : Option β) := by
  split
  · next r2 heq =>
    injection heq with hch _
    exact absurd hch hc
  · rfl

theorem match_paren_head (f : Str → Option β) (c : Char) (t : Str) (hc : c ≠ ')') :
    (match c :: t with
     | ')' :: r => f r
     | _ => none) = (none : Option β) := by
  split
  · next r heq =>
    injection heq with hch _
    exact absurd hch hc
  · rfl

theorem parenChoices_filterMap (content : Str)
    (hcontent : ∀ c ∈ content, c ≠ '(' ∧ c ≠ ')') :
    (runsAsc isNonParen (content ++ [')'])).filterMap parenArm
    = [(some ('(' :: (content ++ [')'])), ([] : Str))] := by
  have hnp : ∀ c ∈ content, isNonParen c = true := by
    intro c hc
    obtain ⟨hc1, hc2⟩ := hcontent c hc
    simp [isNonParen, hc1, hc2]
  have hm : (content ++ [')']).takeWhile isNonParen = content := by
    rw [takeWhile_append_all _ _ _ hnp, takeWhile_cons_neg _ _ _ (by decide)]
    simp
  have hunfold : runsAsc isNonParen (content ++ [')'])
      = (List.range (((content ++ [')']).takeWhile isNonParen).length + 1)).map
          (fun i => (((content ++ [')']).takeWhile isNonParen).take i,
                     (content ++ [')']).drop i)) := rfl
  rw [hunfold, hm, List.range_succ, List.map_append, List.filterMap_append]
  have h1 : (((List.range content.length).map
      (fun i => (content.take i, (content ++ [')']).drop i))).filterMap parenArm) = [] := by
    rw [List.filterMap_eq_nil_iff]
    intro x hx
    simp only [List.mem_map, List.mem_range] at hx
    obtain ⟨i, hi, hxe⟩ := hx
    subst hxe
    have hdrop : (content ++ [')']).drop i
        = content[i] :: (content.drop (i + 1) ++ [')']) := by
      rw [List.drop_append_of_le_length (by omega)]
      rw [List.drop_eq_getElem_cons hi]
      rfl
    rw [parenArm]
    simp only [hdrop]
    exact match_paren_head _ content[i] _ (hcontent content[i] (content.getElem_mem hi)).2
  rw [h1]
  have h2 : (content.take content.length, (content ++ [')']).drop content.length)
      = (content, [')']) := by
    rw [List.take_length, List.drop_left]
  simp [h2, parenArm]

theorem firstSome_singleton (a : α) (f : α → Option β) : firstSome [a] f = f a := by
  cases h : f a <;> simp [firstSome, h]

theorem dollar_skip_step (X : Str) (k : Option Str × Str → Option β) :
    firstSome (dollarGroupChoices (':' :: X)) k = k (none, ':' :: X) := by
  rw [show dollarGroupChoices (':' :: X) = [(none, ':' :: X)] from rfl, firstSome_singleton]

theorem full_form_drop_analysis (pkg cls tail2 : Str)
    (hcls2 : ∀ c ∈ cls, isWordChar c = true)
    (L : Nat) (hL1 : pkg.length < L) (hL2 : L ≤ pkg.length + (cls.length + 2)) :
    ∃ c t, (pkg ++ '.' :: (cls ++ ':' :: ' ' :: tail2)).drop L = c :: t ∧ c ≠ '.' := by
  obtain ⟨u, rfl⟩ : ∃ u, L = pkg.length + (u + 1) := ⟨L - pkg.length - 1, by omega⟩
  rw [List.drop_append, List.drop_succ_cons]
  rcases Nat.lt_or_ge u cls.length with h | h
  · refine ⟨cls[u], cls.drop (u + 1) ++ ':' :: ' ' :: tail2, ?_,
      wordChar_ne_dot _ (hcls2 _ (cls.getElem_mem h))⟩
    rw [List.drop_append_of_le_length (by omega), List.drop_eq_getElem_cons h,
      List.cons_append]
  · rcases Nat.eq_or_lt_of_le h with he | hlt
    · rw [← he, List.drop_left]
      exact ⟨':', ' ' :: tail2, rfl, by decide⟩
    · have hu : u = cls.length + 1 := by omega
      subst hu
      rw [show cls.length + 1 = cls.length + 1 from rfl,
        show (cls ++ ':' :: ' ' :: tail2).drop (cls.length + 1)
          = (':' :: ' ' :: tail2).drop 1 from List.drop_append 1]
      exact ⟨' ', tail2, rfl, by decide⟩

theorem takeWhile_cons_pos (p : Char → Bool) (y : Char) (ys : Str) (h : p y = true) :
    (y :: ys).takeWhile p = y :: ys.takeWhile p := by
  simp [List.takeWhile_cons, h]

theorem dotArm_none (k : Str → Str → Option β) (g t : Str) (c : Char) (hc : c ≠ '.') :
    dotArm k (g, c :: t) = none := by
  unfold dotArm
  split
  · next r2 heq =>
    injection heq with hch _
    exact absurd hch hc
  · rfl

theorem dotArm_cons (k : Str → Str → Option β) (g r : Str) :
    dotArm k (g, '.' :: r) = k g r := rfl

theorem colonSpaceArm_app (k : Option Str → Str → Option β) (g : Option Str) (r : Str) :
    colonSpaceArm k (g, ':' :: ' ' :: r) = k g r := rfl

theorem spaceArm_app (k : Str → Str → Option β) (g r : Str) :
    spaceArm k (g, ' ' :: r) = k g r := rfl

theorem runs_full_then_char {p : Char → Bool} {xs : Str} {c : Char} {ys : Str}
    {k : Str × Str → Option β} {b : β}
    (hxs1 : xs ≠ []) (hxs2 : ∀ x ∈ xs, p x = true) (hc : p c = false)
    (hsucc : k (xs, c :: ys) = some b) :
    firstSome (runsDesc p (xs ++ c :: ys)) k = some b := by
  have hm : (xs ++ c :: ys).takeWhile p = xs := by
    rw [takeWhile_append_all p xs _ hxs2, takeWhile_cons_neg p c ys hc, List.append_nil]
  refine firstSome_runsDesc_spec p _ k xs.length b (List.length_pos.mpr hxs1) ?_ ?_ ?_
  · rw [hm]
  · intro L h1 h2
    rw [hm] at h2
    omega
  · rw [hm, List.take_length, List.drop_left]
    exact hsucc

theorem paren_step (content : Str) (k : Option Str × Str → Option β) (b : β)
    (hcontent : ∀ c ∈ content, c ≠ '(' ∧ c ≠ ')')
    (hk : k (some ('(' :: (content ++ [')'])), []) = some b) :
    firstSome (parenGroupChoices ('(' :: (content ++ [')']))) k = some b := by
  refine firstSome_append_some _ _ _ _ ?_
  change firstSome ((runsAsc isNonParen (content ++ [')'])).filterMap parenArm) k = some b
  rw [parenChoices_filterMap content hcontent, firstSome_singleton]
  exact hk

theorem matchP1_full_form (ac : Bool) (pkg cls ret nm content : Str)
    (hpkg1 : pkg ≠ []) (hpkg2 : ∀ c ∈ pkg, c.isWhitespace = false)
    (hcls1 : cls ≠ []) (hcls2 : ∀ c ∈ cls, isWordChar c = true)
    (hret1 : ret ≠ []) (hret2 : ∀ c ∈ ret, c.isWhitespace = false)
    (hnm1 : nm ≠ []) (hnm2 : ∀ c ∈ nm, isNameChar c = true)
    (hcontent : ∀ c ∈ content, c ≠ '(' ∧ c ≠ ')') :
    matchMethodPattern1 ac
        (pkg ++ '.' :: (cls ++ ':' :: ' ' :: (ret ++ ' ' :: (nm ++ '(' :: (content ++ [')'])))))
      = some ⟨pkg, cls, none, ret, nm, some ('(' :: (content ++ [')']))⟩ := by
  have hpkgns : ∀ c ∈ pkg, isNonSpace c = true := by
    intro c hc
    simp [isNonSpace, hpkg2 c hc]
  have hclsns : ∀ c ∈ cls, isNonSpace c = true := by
    intro c hc
    simp [isNonSpace, wordChar_not_ws c (hcls2 c hc)]
  have hretns : ∀ c ∈ ret, isNonSpace c = true := by
    intro c hc
    simp [isNonSpace, hret2 c hc]
  have hm1 : (pkg ++ '.' :: (cls ++ ':' :: ' ' ::
        (ret ++ ' ' :: (nm ++ '(' :: (content ++ [')']))))).takeWhile isNonSpace
      = pkg ++ '.' :: (cls ++ [':']) := by
    rw [takeWhile_append_all _ _ _ hpkgns,
        takeWhile_cons_pos _ _ _ (by decide),
        takeWhile_append_all _ _ _ hclsns,
        takeWhile_cons_pos _ _ _ (by decide),
        takeWhile_cons_neg _ _ _ (by decide)]
  refine firstSome_runsDesc_spec isNonSpace _ _ pkg.length _
    (List.length_pos.mpr hpkg1) ?_ ?_ ?_
  · rw [hm1, List.length_append]
    omega
  · intro L hL1 hL2
    rw [hm1] at hL2
    simp only [List.length_append, List.length_cons, List.length_nil] at hL2
    obtain ⟨c, t, hdropL, hc⟩ :=
      full_form_drop_analysis pkg cls _ hcls2 L hL1 (by omega)
    rw [hdropL]
    exact dotArm_none _ _ _ _ hc
  · have htk : ((pkg ++ '.' :: (cls ++ ':' :: ' ' ::
          (ret ++ ' ' :: (nm ++ '(' :: (content ++ [')']))))).takeWhile isNonSpace).take
          pkg.length = pkg := by
      rw [hm1]
      exact List.take_left _ _
    have hdp : (pkg ++ '.' :: (cls ++ ':' :: ' ' ::
          (ret ++ ' ' :: (nm ++ '(' :: (content ++ [')']))))).drop pkg.length
        = '.' :: (cls ++ ':' :: ' ' :: (ret ++ ' ' :: (nm ++ '(' :: (content ++ [')'])))) :=
      List.drop_left _ _
    rw [htk, hdp, dotArm_cons]
    refine runs_full_then_char hcls1 hcls2 (by decide) ?_
    refine Eq.trans (dollar_skip_step _ _) ?_
    rw [colonSpaceArm_app]
    refine runs_full_then_char hret1 hretns (by decide) ?_
    rw [spaceArm_app]
    refine firstSome_append_some _ _ _ _ ?_
    refine firstSome_append_some _ _ _ _ ?_
    refine runs_full_then_char hnm1 hnm2 (by decide) ?_
    refine paren_step content _ _ hcontent ?_
    rfl

theorem intercalate_cons_cons (sep x y : Str) (zs : List Str) :
    List.intercalate sep (x :: y :: zs) = x ++ sep ++ List.intercalate sep (y :: zs) := by
  simp [List.intercalate, List.intersperse_cons_cons, List.append_assoc]

theorem intercalate_single (sep x : Str) : List.intercalate sep [x] = x := by
  simp [List.intercalate]

theorem filter_intercalate (p : Char → Bool) (sep : Str) (xs : List Str) :
    (List.intercalate sep xs).filter p
      = List.intercalate (sep.filter p) (xs.map (List.filter p)) := by
  induction xs with
  | nil => rfl
  | cons x ys ih =>
    cases ys with
    | nil => simp [intercalate_single]
    | cons y zs =>
      rw [intercalate_cons_cons, List.filter_append, List.filter_append, ih]
      simp [List.map_cons, intercalate_cons_cons, List.append_assoc]

theorem mem_intercalate_comma (params : List Str) (c : Char)
    (hc : c ∈ List.intercalate [','] params) : c = ',' ∨ ∃ q ∈ params, c ∈ q := by
  induction params with
  | nil => simp [List.intercalate] at hc
  | cons p ps ih =>
    cases ps with
    | nil =>
      rw [intercalate_single] at hc
      exact Or.inr ⟨p, by simp, hc⟩
    | cons q qs =>
      rw [intercalate_cons_cons] at hc
      rcases List.mem_append.mp hc with h1 | h1
      · rcases List.mem_append.mp h1 with h2 | h2
        · exact Or.inr ⟨p, by simp, h2⟩
        · exact Or.inl (by simpa using h2)
      · rcases ih h1 with h | ⟨r, hr, hcr⟩
        · exact Or.inl h
        · exact Or.inr ⟨r, by simp [hr], hcr⟩

theorem getLast_append_ne (l1 l2 : Str) (h : l2 ≠ []) :
    (l1 ++ l2).getLast? = l2.getLast? := by
  rw [← List.head?_reverse, ← List.head?_reverse l2, List.reverse_append]
  cases hrev : l2.reverse with
  | nil => exact absurd (by simpa using congrArg List.reverse hrev) h
  | cons x xs => simp

theorem getLast_cons_ne (a : Char) (l : Str) (h : l ≠ []) :
    (a :: l).getLast? = l.getLast? := by
  rw [show a :: l = [a] ++ l from rfl]
  exact getLast_append_ne [a] l h

theorem head_append_ne (l1 l2 : Str) (h : l1 ≠ []) : (l1 ++ l2).head? = l1.head? := by
  cases l1 with
  | nil => exact absurd rfl h
  | cons a t => rfl

theorem full_form_getLast (pkg cls ret nm content : Str) :
    (pkg ++ '.' :: (cls ++ ':' :: ' ' ::
        (ret ++ ' ' :: (nm ++ '(' :: (content ++ [')']))))).getLast?
      = some ')' := by
  simp [getLast_append_ne, getLast_cons_ne]

theorem stripSet_paren_wrap (cs content : Str)
    (hmem : ∀ c ∈ content, cs.contains c = false)
    (hopen : cs.contains '(' = true) (hclose : cs.contains ')' = true) :
    stripSet cs ('(' :: (content ++ [')'])) = content := by
  have hopen' : '(' ∈ cs := by simpa using hopen
  have hclose' : ')' ∈ cs := by simpa using hclose
  have hmem' : ∀ c ∈ content, c ∉ cs := by
    intro c hc
    simpa using hmem c hc
  cases content with
  | nil =>
    rw [stripSet]
    simp [List.dropWhile_cons, hopen', hclose']
  | cons a t =>
    have h1 : ('(' :: ((a :: t) ++ [')'])).dropWhile (cs.contains ·) = a :: (t ++ [')']) := by
      rw [show ('(' :: ((a :: t) ++ [')'])) = '(' :: a :: (t ++ [')']) from rfl,
          List.dropWhile_cons, List.dropWhile_cons]
      simp [hopen', hmem' a (by simp)]
    have h2 : (a :: (t ++ [')'])).reverse = ')' :: (a :: t).reverse := by
      rw [show a :: (t ++ [')']) = (a :: t) ++ [')'] from rfl, List.reverse_append]
      rfl
    rcases hrev : (a :: t).reverse with _ | ⟨b, u⟩
    · exact absurd (congrArg List.length hrev) (by simp)
    · have hbmem : b ∈ a :: t := by
        have hbr : b ∈ (a :: t).reverse := by
          rw [hrev]
          exact List.mem_cons_self _ _
        exact List.mem_reverse.mp hbr
      have hb : b ∉ cs := hmem' b hbmem
      have h3 : (')' :: b :: u).dropWhile (cs.contains ·) = b :: u := by
        rw [List.dropWhile_cons, List.dropWhile_cons]
        simp [hclose', hb]
      rw [stripSet, h1, h2, hrev, h3, ← hrev, List.reverse_reverse]

theorem parseParameterList_intercalate (params : List Str)
    (hparams : ∀ q ∈ params, q ≠ [] ∧ ∀ c ∈ q,
        c.isWhitespace = false ∧ c ≠ '(' ∧ c ≠ ')' ∧ c ≠ ',') :
    parseParameterList ('(' :: (List.intercalate [','] params ++ [')'])) = params := by
  rw [parseParameterList]
  have hmem : ∀ c ∈ List.intercalate [','] params, (pyStr "()").contains c = false := by
    intro c hc
    rcases mem_intercalate_comma params c hc with h | ⟨q, hq, hcq⟩
    · subst h
      rfl
    · obtain ⟨-, h2⟩ := hparams q hq
      obtain ⟨-, hc1, hc2, -⟩ := h2 c hcq
      rw [show pyStr "()" = ['(', ')'] from rfl]
      simp [hc1, hc2]
  rw [stripSet_paren_wrap _ _ hmem (by rfl) (by rfl)]
  rcases params with _ | ⟨p, ps⟩
  · rfl
  · rw [List.splitOn_intercalate (p :: ps) ','
      (by
        intro l hl hcl
        exact absurd rfl ((hparams l hl).2 ',' hcl).2.2.2)
      (by simp)]
    have hm : (p :: ps).map pyTrim = p :: ps := by
      have hstep : (p :: ps).map pyTrim = (p :: ps).map id := by
        apply List.map_congr_left
        intro q hq
        obtain ⟨-, h2⟩ := hparams q hq
        exact pyTrim_eq_self q
          (fun c hc => (h2 c (List.mem_of_mem_head? hc)).1)
          (fun c hc => (h2 c (List.mem_of_mem_getLast? hc)).1)
      rw [hstep, List.map_id]
    rw [hm, List.filter_eq_self.mpr]
    intro q hq
    simp [(hparams q hq).1]

/-- C7 (amended): on the full grammar form `pkg.Class: Ret name(p1,...,pn)`
    without inner class — package nonempty, whitespace-free and not starting
    with an angle bracket; class a nonempty word; return type nonempty and
    whitespace-free; method name nonempty over `[\w$]`; parameters nonempty
    and free of whitespace, parentheses and commas — `MethodSignature.from_str`
    parses the string into exactly those components, and stringifying the
    parse result reproduces the input up to whitespace removal. -/
theorem c7_full_form_round_trip (pkg cls ret nm : Str) (params : List Str)
    (hpkg1 : pkg ≠ [])
    (hpkg2 : ∀ c ∈ pkg, c.isWhitespace = false ∧ c ≠ '<' ∧ c ≠ '>')
    (hcls1 : cls ≠ []) (hcls2 : ∀ c ∈ cls, isWordChar c = true)
    (hret1 : ret ≠ []) (hret2 : ∀ c ∈ ret, c.isWhitespace = false)
    (hnm1 : nm ≠ []) (hnm2 : ∀ c ∈ nm, isNameChar c = true)
    (hparams : ∀ q ∈ params, q ≠ [] ∧ ∀ c ∈ q,
        c.isWhitespace = false ∧ c ≠ '(' ∧ c ≠ ')' ∧ c ≠ ',') :
    MethodSignature.from_str
        (pkg ++ '.' :: (cls ++ ':' :: ' ' :: (ret ++ ' ' ::
          (nm ++ '(' :: (List.intercalate [','] params ++ [')'])))))
      = some { package_name := pkg, class_name := cls, inner_class := none,
               method_name := nm, return_type := some ret, parameters := some params }
    ∧ removeWS (MethodSignature.str
        { package_name := pkg, class_name := cls, inner_class := none,
          method_name := nm, return_type := some ret, parameters := some params })
      = removeWS (pkg ++ '.' :: (cls ++ ':' :: ' ' :: (ret ++ ' ' ::
          (nm ++ '(' :: (List.intercalate [','] params ++ [')']))))) := by
  have hcontent : ∀ c ∈ List.intercalate [','] params, c ≠ '(' ∧ c ≠ ')' := by
    intro c hc
    rcases mem_intercalate_comma params c hc with h | ⟨q, hq, hcq⟩
    · subst h
      exact ⟨by decide, by decide⟩
    · obtain ⟨-, h2⟩ := hparams q hq
      obtain ⟨-, a, b, -⟩ := h2 c hcq
      exact ⟨a, b⟩
  constructor
  · have htrim : pyTrim (pkg ++ '.' :: (cls ++ ':' :: ' ' :: (ret ++ ' ' ::
          (nm ++ '(' :: (List.intercalate [','] params ++ [')'])))))
        = pkg ++ '.' :: (cls ++ ':' :: ' ' :: (ret ++ ' ' ::
          (nm ++ '(' :: (List.intercalate [','] params ++ [')'])))) := by
      apply pyTrim_eq_self
      · intro c hc
        rw [head_append_ne _ _ hpkg1] at hc
        exact (hpkg2 c (List.mem_of_mem_head? hc)).1
      · intro c hc
        rw [full_form_getLast] at hc
        simp at hc
        subst hc
        rfl
    have hstrip : stripSet (pyStr "<>") (pkg ++ '.' :: (cls ++ ':' :: ' ' :: (ret ++ ' ' ::
          (nm ++ '(' :: (List.intercalate [','] params ++ [')'])))))
        = pkg ++ '.' :: (cls ++ ':' :: ' ' :: (ret ++ ' ' ::
          (nm ++ '(' :: (List.intercalate [','] params ++ [')'])))) := by
      apply stripSet_eq_self
      · intro c hc
        rw [head_append_ne _ _ hpkg1] at hc
        obtain ⟨-, h1, h2⟩ := hpkg2 c (List.mem_of_mem_head? hc)
        rw [show pyStr "<>" = ['<', '>'] from rfl]
        simp [h1, h2]
      · intro c hc
        rw [full_form_getLast] at hc
        simp at hc
        subst hc
        rfl
    have hmatch := matchP1_full_form true pkg cls ret nm (List.intercalate [','] params)
      hpkg1 (fun c hc => (hpkg2 c hc).1) hcls1 hcls2 hret1 hret2 hnm1 hnm2 hcontent
    have hppl := parseParameterList_intercalate params hparams
    simp only [MethodSignature.from_str, parseMethodSignature]
    rw [htrim, hstrip, hmatch]
    simp [hppl]
  · have fpkg : List.filter (fun c => !c.isWhitespace) pkg = pkg :=
      List.filter_eq_self.mpr (fun c hc => by simp [(hpkg2 c hc).1])
    have fcls : List.filter (fun c => !c.isWhitespace) cls = cls :=
      List.filter_eq_self.mpr (fun c hc => by simp [wordChar_not_ws c (hcls2 c hc)])
    have fret : List.filter (fun c => !c.isWhitespace) ret = ret :=
      List.filter_eq_self.mpr (fun c hc => by simp [hret2 c hc])
    have fnm : List.filter (fun c => !c.isWhitespace) nm = nm :=
      List.filter_eq_self.mpr (fun c hc => by simp [nameChar_not_ws c (hnm2 c hc)])
    have fparams : params.map (List.filter (fun c => !c.isWhitespace)) = params := by
      have hstep : params.map (List.filter (fun c => !c.isWhitespace)) = params.map id := by
        apply List.map_congr_left
        intro q hq
        exact List.filter_eq_self.mpr (fun c hc => by simp [((hparams q hq).2 c hc).1])
      rw [hstep, List.map_id]
    have hif : (if params = [] then ([] : Str)
          else List.intercalate (pyStr ", ") params)
        = List.intercalate (pyStr ", ") params := by
      rcases params with _ | _
      · rfl
      · simp
    simp only [MethodSignature.str, hif]
    simp [removeWS, List.filter_append, List.filter_cons, filter_intercalate,
      fpkg, fcls, fret, fnm, fparams,
      show pyStr ": " = [':', ' '] from rfl,
      show pyStr ", " = [',', ' '] from rfl,
      show ('.'.isWhitespace) = false from rfl,
      show (':'.isWhitespace) = false from rfl,
      show (' '.isWhitespace) = true from rfl,
      show ('('.isWhitespace) = false from rfl,
      show (')'.isWhitespace) = false from rfl,
      show (','.isWhitespace) = false from rfl,
      List.append_assoc]

/-- C7 (counterexample): the short grammar form `a.B.m` is well formed and
    parses, but its stringification is `a.B: None m()` — the absent return
    type is printed as the text `None` and a parameter list is appended —
    which differs from the input even after removing every whitespace
    character, so the parse/stringify round trip fails on the short form. -/
theorem c7_short_form_not_round_trip :
    MethodSignature.from_str (pyStr "a.B.m")
        = some { package_name := pyStr "a", class_name := pyStr "B", inner_class := none,
                 method_name := pyStr "m", return_type := none, parameters := none }
    ∧ MethodSignature.str
        { package_name := pyStr "a", class_name := pyStr "B", inner_class := none,
          method_name := pyStr "m", return_type := none, parameters := none }
        = pyStr "a.B: None m()"
    ∧ removeWS (MethodSignature.str
        { package_name := pyStr "a", class_name := pyStr "B", inner_class := none,
          method_name := pyStr "m", return_type := none, parameters := none })
        ≠ removeWS (pyStr "a.B.m") :=
  ⟨by decide, by decide, by decide⟩

theorem c7_full_form_round_trip_witness :
    MethodSignature.from_str
        (pyStr "com.ex" ++ '.' :: (pyStr "Main" ++ ':' :: ' ' :: (pyStr "void" ++ ' ' ::
          (pyStr "run" ++ '(' :: (List.intercalate [','] [pyStr "int", pyStr "long"] ++ [')'])))))
      = some { package_name := pyStr "com.ex", class_name := pyStr "Main", inner_class := none,
               method_name := pyStr "run", return_type := some (pyStr "void"),
               parameters := some [pyStr "int", pyStr "long"] }
    ∧ removeWS (MethodSignature.str
        { package_name := pyStr "com.ex", class_name := pyStr "Main", inner_class := none,
          method_name := pyStr "run", return_type := some (pyStr "void"),
          parameters := some [pyStr "int", pyStr "long"] })
      = removeWS (pyStr "com.ex" ++ '.' :: (pyStr "Main" ++ ':' :: ' ' :: (pyStr "void" ++ ' ' ::
          (pyStr "run" ++ '(' :: (List.intercalate [','] [pyStr "int", pyStr "long"] ++ [')']))))) :=
  c7_full_form_round_trip (pyStr "com.ex") (pyStr "Main") (pyStr "void") (pyStr "run")
    [pyStr "int", pyStr "long"]
    (by decide) (by decide) (by decide) (by decide) (by decide) (by decide)
    (by decide) (by decide) (by decide)
